import Mathlib

/-!
Verification of core components of the cloud-profiler-java agent.

The definitions below are a shallow embedding of the C++ sources:

* `third_party/javaprofiler/clock.h`        (timespec arithmetic)
* `third_party/javaprofiler/stacktraces.cc` (AsyncSafeTraceMultiset, TraceMultiset,
                                             CalculateHash, Equal, HarvestSamples)
* `src/profiler.cc`                         (Profiler::Handle accounting,
                                             WallProfiler::EffectivePeriodNanos,
                                             WallProfiler::Collect)
* `src/proto.cc`                            (ProfileProtoBuilder, SerializeAndClearJavaCpuTraces)
* `src/throttler_api.cc`                    (IsValidServiceName, backoff envelope)
* `src/worker.cc`                           (Collect wrapper)

Machine integers are modeled as `Int`/`Nat`; 64-bit unsigned wraparound is made
explicit with `% 2 ^ 64` where the C++ code computes in `uint64_t`.  The
concurrent structures are embedded with their sequential semantics (each atomic
read-modify-write completes uninterrupted); per-slot `active_updates` counters,
which only matter for torn reads under concurrency, are omitted.
-/

set_option maxRecDepth 40000

namespace CloudProfiler

/-! ## Clock (`third_party/javaprofiler/clock.h`) -/

/-- `kNanosPerSecond` from clock.h. -/
def kNanosPerSecond : Int := 1000 * 1000 * 1000

/-- `struct timespec`: `tv_sec` (`time_t`) and `tv_nsec` (`long`). -/
structure Timespec where
  tv_sec : Int
  tv_nsec : Int
deriving DecidableEq

/-- `TimeAdd` from clock.h: adds fields, then normalizes the nanosecond field
only when it strictly exceeds `kNanosPerSecond`. -/
def timeAdd (t1 t2 : Timespec) : Timespec :=
  let t : Timespec := ⟨t1.tv_sec + t2.tv_sec, t1.tv_nsec + t2.tv_nsec⟩
  if t.tv_nsec > kNanosPerSecond then
    ⟨t.tv_sec + t.tv_nsec / kNanosPerSecond, t.tv_nsec % kNanosPerSecond⟩
  else t

/-- `TimeLessThan` from clock.h (lexicographic comparison). -/
def timeLessThan (t1 t2 : Timespec) : Bool :=
  t1.tv_sec < t2.tv_sec || (t1.tv_sec == t2.tv_sec && t1.tv_nsec < t2.tv_nsec)

/-- `NanosToTimeSpec` from clock.h. -/
def nanosToTimeSpec (nanos : Int) : Timespec :=
  ⟨nanos / kNanosPerSecond, nanos % kNanosPerSecond⟩

/-- `TimeSpecToNanos` from clock.h. -/
def timeSpecToNanos (ts : Timespec) : Int :=
  kNanosPerSecond * ts.tv_sec + ts.tv_nsec

/-! ## Stack-trace data (`stacktrace_decls.h`, `stacktraces.h`) -/

/-- `JVMPI_CallFrame`: `lineno` is a `jint`; `method_id` is a `jmethodID`
pointer, modeled by its `uintptr_t` value. -/
structure JVMPICallFrame where
  lineno : Int
  methodId : Nat
deriving DecidableEq

/-- `kMaxFramesToCapture` from stacktraces.h. -/
def kMaxFramesToCapture : Nat := 128

/-- `kMaxStackTraces` from stacktraces.h. -/
def kMaxStackTraces : Nat := 2048

/-- `kTraceCountLocked` from stacktraces.h. -/
def kTraceCountLocked : Int := -1

/-- Value of an `int64_t` reinterpreted as `uint64_t` (two's complement). -/
def u64OfInt (i : Int) : Nat := (i % (2 ^ 64 : Int)).toNat

/-- One mixing step of `CalculateHash`: `h += h << 10; h ^= h >> 6;`
in `uint64_t` arithmetic. -/
def hashMix (h : Nat) : Nat :=
  let h1 := (h + h * 2 ^ 10) % 2 ^ 64
  Nat.xor h1 (h1 / 2 ^ 6)

/-- The per-frame part of `CalculateHash`: for each frame,
`h += method_id; h += h << 10; h ^= h >> 6; h += lineno; h += h << 10; h ^= h >> 6`.
The `lineno` is converted through `static_cast<uintptr_t>` (sign extension). -/
def hashFrames : Nat → List JVMPICallFrame → Nat
  | h, [] => h
  | h, f :: fs =>
      hashFrames (hashMix ((hashMix ((h + f.methodId) % 2 ^ 64) + u64OfInt f.lineno) % 2 ^ 64)) fs

/-- `CalculateHash(attr, num_frames, frame)` from stacktraces.cc. -/
def calculateHash (attr : Int) (frames : List JVMPICallFrame) : Nat :=
  let h0 := hashMix (u64OfInt attr)
  let h1 := hashFrames h0 frames
  let h2 := (h1 + h1 * 2 ^ 3) % 2 ^ 64
  Nat.xor h2 (h2 / 2 ^ 11)

/-- `Equal(num_frames, f1, f2)` from stacktraces.cc, comparing `method_id` and
`lineno` member-wise.  At every call site the two arrays hold the same number
`num_frames` of valid frames, so the comparison is over equal-length lists. -/
def equalFrames : List JVMPICallFrame → List JVMPICallFrame → Bool
  | [], [] => true
  | f :: fs, g :: gs =>
      (f.methodId == g.methodId && f.lineno == g.lineno) && equalFrames fs gs
  | _, _ => false


/-! ## AsyncSafeTraceMultiset (`stacktraces.cc`)

The slot array `TraceData traces_[kMaxStackTraces]` is modeled as a function
from slot index to slot contents.  `count == 0` is a free slot,
`count == kTraceCountLocked` the reserved sentinel, positive counts are
occupied slots.  The embedding gives the sequential semantics of the
operations: every CAS succeeds when its expected value matches (no spurious
`compare_exchange_weak` failures, no interleavings), so the transient LOCKED
state is never observable between operations. -/

/-- One `TraceData` slot: attribute, the frames stored in `frame_buffer`
(together with `trace.num_frames`, modeled by the list length), and `count`. -/
structure TraceData where
  attr : Int
  frames : List JVMPICallFrame
  count : Int
deriving DecidableEq

/-- The slot array of the `AsyncSafeTraceMultiset`. -/
def SlotMap := Nat → TraceData

/-- `Reset()` / zero initialization: all slots free. -/
def emptySlots : SlotMap := fun _ => ⟨0, [], 0⟩

/-- Write one slot of the array. -/
def setSlot (s : SlotMap) (i : Nat) (v : TraceData) : SlotMap :=
  fun j => if j = i then v else s j

/-- The equality test performed by `AsyncSafeTraceMultiset::Add` on an occupied
entry: `attr == entry.attr && trace->num_frames == entry.trace.num_frames &&
Equal(trace->num_frames, entry.trace.frames, trace->frames)`. -/
def addMatch (e : TraceData) (attr : Int) (frames : List JVMPICallFrame) : Bool :=
  attr == e.attr && frames.length == e.frames.length && equalFrames e.frames frames


/-- The probe loop of `AsyncSafeTraceMultiset::Add`, given the list of
remaining probe numbers `i` (the loop runs `i = 0, …, MaxEntries()-1`).  The
probed index is `(i + hash_val) % MaxEntries()`.  A free slot (`count == 0`)
is claimed and filled with count 1; a locked slot is skipped; an occupied slot
is incremented when its attribute and frames match, and skipped otherwise;
when the probes are exhausted the sample is rejected. -/
def addProbes (s : SlotMap) (attr : Int) (frames : List JVMPICallFrame) (hashVal : Nat) :
    List Nat → Bool × SlotMap
  | [] => (false, s)
  | i :: rest =>
      let idx := (i + hashVal) % kMaxStackTraces
      let e := s idx
      if e.count = 0 then
        (true, setSlot s idx ⟨attr, frames, 1⟩)
      else if e.count = kTraceCountLocked then
        addProbes s attr frames hashVal rest
      else if addMatch e attr frames then
        (true, setSlot s idx { e with count := e.count + 1 })
      else
        addProbes s attr frames hashVal rest

/-- `AsyncSafeTraceMultiset::Add(attr, trace)`. -/
def add (s : SlotMap) (attr : Int) (frames : List JVMPICallFrame) : Bool × SlotMap :=
  addProbes s attr frames (calculateHash attr frames) (List.range kMaxStackTraces)

/-- Result of `AsyncSafeTraceMultiset::Extract`: the returned frame count, the
values written to the out-parameters `*attr`, `frames[]`, `*count` (`none` when
the function returns before writing them), and the slot array afterwards. -/
structure ExtractResult where
  ret : Int
  out : Option (Int × List JVMPICallFrame × Int)
  slots : SlotMap

/-- The frame-count cap of `Extract`:
`if (num_frames > max_frames) num_frames = max_frames`. -/
def capFrames (len : Nat) (maxFrames : Int) : Int :=
  if (len : Int) > maxFrames then maxFrames else (len : Int)

/-- `AsyncSafeTraceMultiset::Extract(location, attr, max_frames, frames, count)`.
Returns 0 untouched for an out-of-range location or a slot that is not
occupied; otherwise moves the slot contents out (at most `max_frames` frames)
and frees the slot. -/
def extract (s : SlotMap) (location : Int) (maxFrames : Int) : ExtractResult :=
  if location < 0 ∨ (kMaxStackTraces : Int) ≤ location then ⟨0, none, s⟩
  else
    let idx := location.toNat
    let e := s idx
    if e.count ≤ 0 then ⟨0, none, s⟩
    else
      let numFrames : Int := capFrames e.frames.length maxFrames
      ⟨numFrames, some (e.attr, e.frames.take numFrames.toNat, e.count),
        setSlot s idx { e with count := 0 }⟩

/-! ## TraceMultiset (`stacktraces.cc`, `stacktraces.h`) -/

/-- `TraceMultiset::CallTrace`: the aggregation key. -/
structure CallTrace where
  attr : Int
  frames : List JVMPICallFrame
deriving DecidableEq

/-- `TraceMultiset::CallTraceHash`. -/
def callTraceHash (t : CallTrace) : Nat := calculateHash t.attr t.frames

/-- `TraceMultiset::CallTraceEqual`. -/
def callTraceEqual (t1 t2 : CallTrace) : Bool :=
  if t1.attr != t2.attr then false
  else if t1.frames.length != t2.frames.length then false
  else equalFrames t1.frames t2.frames


/-- The `unordered_map<CallTrace, uint64, CallTraceHash, CallTraceEqual>`
backing `TraceMultiset`, embedded as an association list; lookup uses
`CallTraceEqual` (the hash only selects buckets and never changes lookup
results, see `callTraceHash_congr`). -/
abbrev TraceMultiset := List (CallTrace × Int)

/-- `TraceMultiset::Add(attr, num_frames, frames, count)`: increment the
matching entry if present, otherwise insert the trace with the given count. -/
def tmAdd (m : TraceMultiset) (attr : Int) (frames : List JVMPICallFrame) (count : Int) :
    TraceMultiset :=
  match m with
  | [] => [(⟨attr, frames⟩, count)]
  | (k, c) :: rest =>
      if callTraceEqual k ⟨attr, frames⟩ then (k, c + count) :: rest
      else (k, c) :: tmAdd rest attr frames count

/-- `HarvestSamples`, iterating over the given list of slot indices
(`List.range kMaxStackTraces` for a full drain): extract each slot and fold
non-empty extractions into the `TraceMultiset`. -/
def harvestIdx : List Nat → SlotMap → TraceMultiset → Nat → Nat × TraceMultiset × SlotMap
  | [], s, m, tc => (tc, m, s)
  | i :: rest, s, m, tc =>
      let r := extract s (i : Int) (kMaxFramesToCapture : Int)
      match r.out with
      | some (attr, frames, count) =>
          if 0 < r.ret ∧ 0 < count then
            harvestIdx rest r.slots (tmAdd m attr frames count) (tc + 1)
          else
            harvestIdx rest r.slots m tc
      | none => harvestIdx rest r.slots m tc

/-- `HarvestSamples(from, to)`: full drain over all `kMaxStackTraces` slots. -/
def harvestSamples (s : SlotMap) (m : TraceMultiset) : Nat × TraceMultiset × SlotMap :=
  harvestIdx (List.range kMaxStackTraces) s m 0

/-- A sequence of `Add` calls, as performed by successive signal-handler runs:
returns the final slot array and whether every call returned `true`. -/
def runAdds : SlotMap → List (Int × List JVMPICallFrame) → SlotMap × Bool
  | s, [] => (s, true)
  | s, (attr, frames) :: rest =>
      let r := add s attr frames
      let r2 := runAdds r.2 rest
      (r2.1, r.1 && r2.2)

/-- The accounting tail of `Profiler::Handle` (profiler.cc):
`if (!fixed_traces_->Add(attr, &trace)) { unknown_stack_count_++; }`. -/
def handleAddSample (s : SlotMap) (attr : Int) (frames : List JVMPICallFrame)
    (unknownStackCount : Nat) : SlotMap × Nat :=
  let r := add s attr frames
  (r.2, if r.1 then unknownStackCount else unknownStackCount + 1)

/-- Measure: total of all slot counts. -/
def slotSum (s : SlotMap) : Int :=
  ((List.range kMaxStackTraces).map (fun i => (s i).count)).sum

/-- A probed slot on which `Add` neither claims nor increments: occupied by a
different trace, or locked. -/
def slotRejects (e : TraceData) (attr : Int) (frames : List JVMPICallFrame) : Prop :=
  e.count ≠ 0 ∧ (e.count = kTraceCountLocked ∨ addMatch e attr frames = false)

/-- The slot-array states reachable by sequences of `Add` calls from `Reset`:
no slot is left locked, and an occupied slot holds the frames of some added
trace (in particular, a nonempty frame list when all added traces are
nonempty). -/
def slotsWellFormed (s : SlotMap) : Prop :=
  ∀ i, 0 ≤ (s i).count ∧ ((s i).count ≠ 0 → (s i).frames ≠ [])

/-- The aggregation key held by a slot. -/
def keyOf (e : TraceData) : CallTrace := ⟨e.attr, e.frames⟩

/-- The key of slot `i` when it is occupied (`count ≠ 0`), else `none`. -/
def slotKeyOpt (s : SlotMap) (i : Nat) : Option CallTrace :=
  if (s i).count ≠ 0 then some (keyOf (s i)) else none

/-- Measure: the keys of the occupied (`count ≠ 0`) slots, in slot order. -/
def keysList (s : SlotMap) : List CallTrace :=
  (List.range kMaxStackTraces).filterMap (slotKeyOpt s)

/-- Measure: total of the counts stored in a `TraceMultiset`. -/
def tmSum (m : TraceMultiset) : Int := (m.map (fun b => b.2)).sum

/-- Measure: the keys (buckets) of a `TraceMultiset`. -/
def tmKeys (m : TraceMultiset) : List CallTrace := m.map (fun b => b.1)

/-- Number of buckets of a `TraceMultiset` matching `t` under `CallTraceEqual`. -/
def tmCountKey (m : TraceMultiset) (t : CallTrace) : Nat :=
  m.countP (fun b => callTraceEqual b.1 t)

/-! ## WallProfiler::EffectivePeriodNanos (`src/profiler.cc`)

The C++ computes in `int64_t`; the claim quantifies over positive arguments,
where C++ truncated division and `Nat` floor division coincide, so the
embedding uses `Nat`. -/

/-- `WallProfiler::EffectivePeriodNanos(period_nanos, num_threads,
max_threads_per_second, duration_nanos)`. -/
def effectivePeriodNanos (periodNanos numThreads maxThreadsPerSecond durationNanos : Nat) :
    Nat :=
  let p1 := if numThreads * 1000000000 > maxThreadsPerSecond * periodNanos then
              numThreads * 1000000000 / maxThreadsPerSecond
            else periodNanos
  let frequency := durationNanos / p1
  if frequency = 0 then durationNanos else durationNanos / frequency

/-! ## ProfileProtoBuilder (`src/proto.cc`)

The pprof location table is abstracted: a location is either a call frame
(resolved by `LocationID(jni, frame)`) or a named artificial function
(resolved by `LocationID(name)`).  The claims depend only on the sample
values, so the location/function dedup tables are not modeled. -/

/-- A sample location reference. -/
inductive LocRef where
  | frame (f : JVMPICallFrame)
  | named (name : String)
deriving DecidableEq

/-- One `perftools.profiles.Sample`: location list and the two sample values
`(count, weight)` appended by `ProfileProtoBuilder::AddSample`, plus the
`attr` label (attached only when nonzero). -/
structure PSample where
  locations : List LocRef
  count : Int
  weight : Int
  attr : Int
deriving DecidableEq

/-- The `ProfileProtoBuilder` state relevant to the claims: the samples of the
profile under construction plus the running `total_count_` / `total_weight_`. -/
structure PBuilder where
  samples : List PSample
  totalCount : Int
  totalWeight : Int
deriving DecidableEq

/-- A freshly constructed builder. -/
def emptyBuilder : PBuilder := ⟨[], 0, 0⟩

/-- `ProfileProtoBuilder::AddSample(locations, count, weight, attr)`. -/
def addSample (b : PBuilder) (locations : List LocRef) (count weight attr : Int) : PBuilder :=
  ⟨b.samples ++ [⟨locations, count, weight, attr⟩],
   b.totalCount + count, b.totalWeight + weight⟩

/-- The sample loop of `ProfileProtoBuilder::Populate`: for every aggregated
trace with nonzero count, add a sample with values
`(count, count * period_ns)` and the trace's attribute. -/
def populate (b : PBuilder) (traces : TraceMultiset) (periodNs : Int) : PBuilder :=
  traces.foldl
    (fun acc tr =>
      if tr.2 ≠ 0 then
        addSample acc (tr.1.frames.map LocRef.frame) tr.2 (tr.2 * periodNs) tr.1.attr
      else acc)
    b

/-- `ProfileProtoBuilder::AddArtificialSample(name, count, weight)`. -/
def addArtificialSample (b : PBuilder) (name : String) (count weight : Int) : PBuilder :=
  addSample b [LocRef.named name] count weight 0

/-- `SerializeAndClearJavaCpuTraces` (sample content): populate from the
aggregated traces, then add the `[Unknown]` sample carrying the lost-sample
count with weight `unknown_count * period_ns`. -/
def serializeAndClearJavaCpuTraces (traces : TraceMultiset) (periodNs unknownCount : Int) :
    PBuilder :=
  addArtificialSample (populate emptyBuilder traces periodNs)
    "[Unknown]" unknownCount (unknownCount * periodNs)

/-! ## APIThrottler creation backoff (`src/throttler_api.cc`)

`creation_backoff_envelope_ns_` is an `int64_t`; the growth step multiplies it
by the `float` constant `kBackoffFactor = 1.3`, truncates back to `int64_t`,
and caps at `kMaxBackoffNanos`.  The binary32 arithmetic is modeled exactly:
`1.3f` is the dyadic rational `10905190 / 2^23`, and each conversion rounds to
24 significant bits with round-to-nearest, ties-to-even. -/

/-- `kBackoffNanos` (1 minute). -/
def kBackoffNanos : Nat := 60 * 1000000000

/-- `kMaxBackoffNanos` (1 hour). -/
def kMaxBackoffNanos : Nat := 60 * 60 * 1000000000

/-- Number of halvings of `n` needed to fall below `2^24` (that is,
`max 0 (⌊log2 n⌋ - 23)`), computed with enough fuel for any value below
`2^(24+fuel)`. -/
def f32Shift : Nat → Nat → Nat
  | 0, _ => 0
  | fuel + 1, n => if n < 2 ^ 24 then 0 else f32Shift fuel (n / 2) + 1

/-- Round a natural number to 24 significant bits (IEEE-754 binary32
round-to-nearest, ties-to-even; exponent overflow cannot occur for `int64_t`
inputs). -/
def rne24 (n : Nat) : Nat :=
  let s := f32Shift 128 n
  if s = 0 then n
  else
    let q := n / 2 ^ s
    let r := n % 2 ^ s
    let half := 2 ^ (s - 1)
    if half < r ∨ (r = half ∧ q % 2 = 1) then (q + 1) * 2 ^ s else q * 2 ^ s

/-- The growth step of `APIThrottler::OnCreationError`:
`min(static_cast<int64_t>(envelope * kBackoffFactor), kMaxBackoffNanos)`.
The product `envelope * 1.3f` converts the `int64_t` to `float` (one
rounding), multiplies by `10905190 / 2^23` with a second rounding, and the
cast truncates toward zero (floor, as the value is nonnegative). -/
def backoffGrow (x : Nat) : Nat :=
  min (rne24 (rne24 x * 10905190) / 2 ^ 23) kMaxBackoffNanos

/-- The `CreateProfile` outcomes that affect the backoff envelope:
success resets it, `ABORTED` with a positive server-provided `retry_delay`
sleeps without touching it, any other failure grows it. -/
inductive ThrottlerEvent where
  | createSuccess
  | abortedWithRetryDelay
  | createFailure
deriving DecidableEq

/-- Envelope transition for one `CreateProfile` outcome (throttler_api.cc:
reset on `st.ok()`, unchanged on server-guided `ABORTED`, grown by
`OnCreationError` otherwise). -/
def backoffStep (env : Nat) : ThrottlerEvent → Nat
  | ThrottlerEvent.createSuccess => kBackoffNanos
  | ThrottlerEvent.abortedWithRetryDelay => env
  | ThrottlerEvent.createFailure => backoffGrow env

/-- The envelope after a run of outcomes, starting from the constructor's
initial value `kBackoffNanos`. -/
def backoffRun (events : List ThrottlerEvent) : Nat :=
  events.foldl backoffStep kBackoffNanos

/-- All envelope values reachable from `kBackoffNanos`: the exact (binary32)
geometric chain up to the `kMaxBackoffNanos` fixpoint. -/
def backoffReachable : List Nat :=
  [60000000000, 77999996928, 101399994368, 131819986944, 171365974016,
   222775754752, 289608466432, 376490983424, 489438248960, 636269690880,
   827150565376, 1075295682560, 1397884321792, 1817249579008, 2362424426496,
   3071151702016, 3600000000000]

/-! ## IsValidServiceName (`src/throttler_api.cc`) -/

/-- The first-character class of the service-name check: `[a-z]`
(`!(c < 'a' || c > 'z')`). -/
def svcLower (c : Char) : Bool := !(c < 'a' || 'z' < c)

/-- The last-character class: `[a-z0-9]`. -/
def svcLast (c : Char) : Bool := !((c < 'a' || 'z' < c) && (c < '0' || '9' < c))

/-- The middle-character class: `[-a-z0-9_.]`. -/
def svcMiddle (c : Char) : Bool :=
  !((c < 'a' || 'z' < c) && (c < '0' || '9' < c) && c != '.' && c != '-' && c != '_')

/-- `IsValidServiceName(s)` on the character list of `s`: length in `[1, 255]`,
first character `[a-z]`, last character `[a-z0-9]`, characters at positions
`1 … length-2` in `[-a-z0-9_.]`. -/
def isValidServiceNameChars (l : List Char) : Bool :=
  if l.length < 1 || 255 < l.length then false
  else if !svcLower (l.headD 'a') then false
  else if !svcLast (l.getLastD 'a') then false
  else (l.drop 1).dropLast.all svcMiddle

/-- `IsValidServiceName(s)` from throttler_api.cc. -/
def isValidServiceName (s : String) : Bool := isValidServiceNameChars s.data

/-- The regular expression `^[a-z]([-a-z0-9_.]{0,253}[a-z0-9])?$` as a match
predicate: either a single `[a-z]` character, or an `[a-z]` head followed by
at most 253 characters of `[-a-z0-9_.]` and a final `[a-z0-9]`. -/
def MatchesServiceNameRegex (l : List Char) : Prop :=
  (∃ c, svcLower c = true ∧ l = [c]) ∨
  (∃ c mid e, svcLower c = true ∧ mid.length ≤ 253 ∧ (∀ x ∈ mid, svcMiddle x = true) ∧
    svcLast e = true ∧ l = c :: (mid ++ [e]))

/-! ## WallProfiler::Collect (`src/profiler.cc`) and the worker wrapper
(`src/worker.cc`)

The loop is embedded with explicit inputs for the environment: `snapshots k`
is the value returned by the `k`-th call to `threads_->Threads()`.  Sleeps
have no observable effect; `Flush()` only moves samples between the two trace
sets and is not observable in the claims, so only the flush counter is kept.
The result records the return value, whether `signal(SIGPROF, SIG_IGN)` was
executed, how many thread snapshots were taken, and the tids signaled via
`TgKill`.  The loop is driven by fuel; `none` means the fuel ran out before
the loop finished. -/

/-- `kFlushPeriod` from `WallProfiler::Collect`. -/
def kFlushPeriod : Int := 128

/-- Observable outcome of `WallProfiler::Collect`. -/
structure WallResult where
  ok : Bool
  sigIgnSet : Bool
  snapshotsTaken : Nat
  signalsSent : List Nat
deriving DecidableEq

/-- The `while (TimeLessThan(next, finish_line))` loop of
`WallProfiler::Collect`, with state `(next, k, count, sent)`. -/
def wallLoop (snapshots : Nat → List Nat) (numThreadsCutoff : Nat) (myTid : Nat)
    (profilePeriod finishLine : Timespec) :
    Nat → Timespec → Nat → Int → List Nat → Option WallResult
  | 0, _, _, _, _ => none
  | fuel + 1, next, k, count, sent =>
      if timeLessThan next finishLine then
        let count2 := if count > kFlushPeriod then 0 else count
        let threads := snapshots k
        if numThreadsCutoff < threads.length then
          some ⟨false, false, k + 1, sent⟩
        else
          wallLoop snapshots numThreadsCutoff myTid profilePeriod finishLine fuel
            (timeAdd next profilePeriod) (k + 1) (count2 + threads.length)
            (sent ++ threads.filter (fun tid => tid ≠ myTid))
      else
        some ⟨true, true, k, sent⟩

/-- `WallProfiler::Collect()`: `finish_line = TimeAdd(Now(), NanosToTimeSpec
(duration))` with `now1` the first `Now()` and `now2` the second (loop start);
`profile_period = {0, period_nanos_}`. -/
def wallCollect (snapshots : Nat → List Nat) (numThreadsCutoff : Nat) (myTid : Nat)
    (periodNanos durationNanos : Int) (now1 now2 : Timespec) (fuel : Nat) :
    Option WallResult :=
  wallLoop snapshots numThreadsCutoff myTid ⟨0, periodNanos⟩
    (timeAdd now1 (nanosToTimeSpec durationNanos)) fuel now2 0 0 []

/-- The anonymous `Collect` wrapper in worker.cc: when `p->Collect()` fails
the iteration yields no profile bytes. -/
def workerCollect (collectOk : Bool) (serialized : String) : String :=
  if collectOk then serialized else ""

/-- The upload guard of `Worker::ProfileThread`: an empty profile skips
`throttler_->Upload`. -/
def workerUploads (profileBytes : String) : Bool := profileBytes != ""

/-! # Theorems -/

/-! ## Basic equality lemmas -/
theorem equalFrames_iff (f g : List JVMPICallFrame) : equalFrames f g = true ↔ f = g := by
  induction f generalizing g with
  | nil => cases g <;> simp [equalFrames]
  | cons x xs ih =>
      cases g with
      | nil => simp [equalFrames]
      | cons y ys =>
          simp only [equalFrames, Bool.and_eq_true, beq_iff_eq, List.cons.injEq, ih]
          constructor
          · rintro ⟨⟨h1, h2⟩, h3⟩
            exact ⟨by cases x; cases y; simp_all, h3⟩
          · rintro ⟨h1, h2⟩
            cases h1; simp [h2]
theorem addMatch_iff (e : TraceData) (attr : Int) (frames : List JVMPICallFrame) :
    addMatch e attr frames = true ↔ attr = e.attr ∧ frames = e.frames := by
  simp only [addMatch, Bool.and_eq_true, beq_iff_eq, equalFrames_iff]
  constructor
  · rintro ⟨⟨h1, _⟩, h3⟩; exact ⟨h1, h3.symm⟩
  · rintro ⟨h1, h2⟩; simp [h1, h2]
theorem callTraceEqual_iff (t1 t2 : CallTrace) : callTraceEqual t1 t2 = true ↔ t1 = t2 := by
  unfold callTraceEqual
  split_ifs with h1 h2
  · simp only [false_iff]
    intro he; subst he; simp at h1
  · simp only [false_iff]
    intro he; subst he; simp at h2
  · rw [equalFrames_iff]
    simp only [bne_iff_ne, ne_eq, not_not] at h1
    cases t1; cases t2
    simp_all [CallTrace.mk.injEq]

/-! ## C10: timespec arithmetic is additive -/

/-- C10: for all timespec values with non-negative seconds and nanosecond
fields in `[0, 10^9]`, `TimeSpecToNanos (TimeAdd a b) = TimeSpecToNanos a +
TimeSpecToNanos b`, even though `TimeAdd` normalizes only when the nanosecond
field strictly exceeds `10^9` and therefore can return a timespec whose
nanosecond field equals exactly `10^9`. -/
theorem timeAdd_timeSpecToNanos_additive (a b : Timespec)
    (ha1 : 0 ≤ a.tv_sec) (ha2 : 0 ≤ a.tv_nsec) (ha3 : a.tv_nsec ≤ 1000000000)
    (hb1 : 0 ≤ b.tv_sec) (hb2 : 0 ≤ b.tv_nsec) (hb3 : b.tv_nsec ≤ 1000000000) :
    timeSpecToNanos (timeAdd a b) = timeSpecToNanos a + timeSpecToNanos b ∧
    (timeAdd ⟨0, 1⟩ ⟨0, 999999999⟩).tv_nsec = 1000000000 := by
  constructor
  · simp only [timeAdd, timeSpecToNanos, kNanosPerSecond]
    split_ifs with h
    · simp only
      omega
    · simp only
      ring
  · decide

/-- Witness for C10 at a concrete input whose nanosecond fields overflow. -/
theorem timeAdd_timeSpecToNanos_additive_witness :
    timeSpecToNanos (timeAdd ⟨1, 500000000⟩ ⟨2, 600000000⟩) =
      timeSpecToNanos ⟨1, 500000000⟩ + timeSpecToNanos ⟨2, 600000000⟩ ∧
    (timeAdd ⟨0, 1⟩ ⟨0, 999999999⟩).tv_nsec = 1000000000 :=
  timeAdd_timeSpecToNanos_additive ⟨1, 500000000⟩ ⟨2, 600000000⟩
    (by decide) (by decide) (by decide) (by decide) (by decide) (by decide)

/-! ## C3: Extract -/

/-- C3: `Extract` returns 0 and leaves the slot array unchanged when the index
is out of `[0, kMaxStackTraces)` or the slot is not occupied; on an occupied
slot it writes the attribute, the frames capped at `max_frames`, and the count
to the out-parameters, returns the number of frames written, and frees the
slot (count 0), leaving all other slots unchanged. -/
theorem extract_spec (s : SlotMap) (location maxFrames : Int) :
    ((location < 0 ∨ (kMaxStackTraces : Int) ≤ location ∨ (s location.toNat).count ≤ 0) →
      extract s location maxFrames = ⟨0, none, s⟩) ∧
    (0 ≤ location → location < (kMaxStackTraces : Int) → 0 < (s location.toNat).count →
      extract s location maxFrames =
        ⟨min ((s location.toNat).frames.length : Int) maxFrames,
         some ((s location.toNat).attr,
           (s location.toNat).frames.take
             (min ((s location.toNat).frames.length : Int) maxFrames).toNat,
           (s location.toNat).count),
         setSlot s location.toNat { s location.toNat with count := 0 }⟩ ∧
      ((s location.toNat).frames.take
          (min ((s location.toNat).frames.length : Int) maxFrames).toNat).length =
        (min ((s location.toNat).frames.length : Int) maxFrames).toNat ∧
      (setSlot s location.toNat { s location.toNat with count := 0 }) location.toNat =
        { s location.toNat with count := 0 } ∧
      ∀ j, j ≠ location.toNat →
        (setSlot s location.toNat { s location.toNat with count := 0 }) j = s j) := by
  constructor
  · intro hcond
    unfold extract
    rcases hcond with h | h | h
    · rw [if_pos (Or.inl h)]
    · rw [if_pos (Or.inr h)]
    · split_ifs with h1
      · rfl
      · simp only
        rw [if_pos h]
  · intro h0 h1 h2
    have hnotr : ¬(location < 0 ∨ (kMaxStackTraces : Int) ≤ location) := by
      push_neg
      exact ⟨h0, h1⟩
    have hcap : capFrames (s location.toNat).frames.length maxFrames =
        min ((s location.toNat).frames.length : Int) maxFrames := by
      unfold capFrames
      rw [min_def]
      split_ifs <;> omega
    have htk : (min ((s location.toNat).frames.length : Int) maxFrames).toNat ≤
        (s location.toNat).frames.length := by omega
    refine ⟨?_, ?_, ?_, ?_⟩
    · unfold extract
      rw [if_neg hnotr, if_neg (by omega)]
      simp only [hcap]
    · rw [List.length_take]
      omega
    · simp [setSlot]
    · intro j hj
      simp [setSlot, hj]

/-- Witness for C3: extracting a concrete occupied slot. -/
theorem extract_spec_witness :
    extract (setSlot emptySlots 5 ⟨7, [⟨1, 2⟩], 3⟩) 5 128 =
      ⟨1, some (7, [⟨1, 2⟩], 3),
       setSlot (setSlot emptySlots 5 ⟨7, [⟨1, 2⟩], 3⟩) 5 ⟨7, [⟨1, 2⟩], 0⟩⟩ := by
  have h := (extract_spec (setSlot emptySlots 5 ⟨7, [⟨1, 2⟩], 3⟩) 5 128).2
    (by decide) (by decide) (by decide)
  exact h.1

/-! ## C2: the hash and equality predicates of `Add` and `TraceMultiset` agree -/

/-- C2: the equality predicate of `AsyncSafeTraceMultiset::Add` and
`TraceMultiset::CallTraceEqual` accept exactly the same pairs, equal pairs
have equal `CalculateHash`/`CallTraceHash` values, and hence draining any
number of slots holding the same `(attribute, frames)` into the
`TraceMultiset` folds them into a single bucket: the bucket for that trace is
unique. -/
theorem add_traceMultiset_agreement :
    (∀ (e : TraceData) (t : CallTrace),
        addMatch e t.attr t.frames = true ↔ callTraceEqual (keyOf e) t = true) ∧
    (∀ t1 t2 : CallTrace,
        callTraceEqual t1 t2 = true → callTraceHash t1 = callTraceHash t2) ∧
    (∀ (counts : List Int) (t : CallTrace), counts ≠ [] →
        tmCountKey (counts.foldl (fun m c => tmAdd m t.attr t.frames c) []) t = 1) := by
  have hself : ∀ t : CallTrace, callTraceEqual t t = true :=
    fun t => (callTraceEqual_iff t t).mpr rfl
  refine ⟨?_, ?_, ?_⟩
  · intro e t
    rw [addMatch_iff, callTraceEqual_iff]
    unfold keyOf
    constructor
    · rintro ⟨h1, h2⟩
      cases t
      simp_all
    · intro h
      cases t
      simp only [CallTrace.mk.injEq] at h
      exact ⟨h.1.symm, h.2.symm⟩
  · intro t1 t2 h
    rw [callTraceEqual_iff] at h
    rw [h]
  · intro counts t hne
    have hk : callTraceEqual ⟨t.attr, t.frames⟩ ⟨t.attr, t.frames⟩ = true := hself _
    have hfold : ∀ (cs : List Int) (c : Int), ∃ c3,
        cs.foldl (fun m c2 => tmAdd m t.attr t.frames c2) [(⟨t.attr, t.frames⟩, c)] =
          [(⟨t.attr, t.frames⟩, c3)] := by
      intro cs
      induction cs with
      | nil => intro c; exact ⟨c, rfl⟩
      | cons c2 cs ih =>
          intro c
          simp only [List.foldl_cons, tmAdd, hk, if_pos]
          exact ih (c + c2)
    match counts, hne with
    | c :: cs, _ =>
        simp only [List.foldl_cons, tmAdd]
        obtain ⟨c3, hc3⟩ := hfold cs c
        rw [hc3]
        have ht : callTraceEqual (⟨t.attr, t.frames⟩ : CallTrace) t = true :=
          (callTraceEqual_iff _ _).mpr (by cases t; rfl)
        simp [tmCountKey, List.countP, List.countP.go, ht]

/-- Witness for C2: two drains of the same trace fold into one bucket. -/
theorem add_traceMultiset_agreement_witness :
    ([1, 2] : List Int) ≠ [] ∧
    tmCountKey (([1, 2] : List Int).foldl
      (fun m c => tmAdd m (3 : Int) [⟨5, 77⟩] c) []) ⟨3, [⟨5, 77⟩]⟩ = 1 :=
  ⟨by decide, add_traceMultiset_agreement.2.2 [1, 2] ⟨3, [⟨5, 77⟩]⟩ (by decide)⟩

/-! ## Probe-loop characterization of `Add` -/

theorem setSlot_same (s : SlotMap) (i : Nat) (v : TraceData) : setSlot s i v i = v := by
  simp [setSlot]

theorem setSlot_other (s : SlotMap) (i : Nat) (v : TraceData) {j : Nat} (h : j ≠ i) :
    setSlot s i v j = s j := by
  simp [setSlot, h]

theorem addProbes_cons (s : SlotMap) (attr : Int) (frames : List JVMPICallFrame)
    (hashVal : Nat) (i : Nat) (rest : List Nat) :
    addProbes s attr frames hashVal (i :: rest) =
      if (s ((i + hashVal) % kMaxStackTraces)).count = 0 then
        (true, setSlot s ((i + hashVal) % kMaxStackTraces) ⟨attr, frames, 1⟩)
      else if (s ((i + hashVal) % kMaxStackTraces)).count = kTraceCountLocked then
        addProbes s attr frames hashVal rest
      else if addMatch (s ((i + hashVal) % kMaxStackTraces)) attr frames then
        (true, setSlot s ((i + hashVal) % kMaxStackTraces)
          { s ((i + hashVal) % kMaxStackTraces) with
              count := (s ((i + hashVal) % kMaxStackTraces)).count + 1 })
      else addProbes s attr frames hashVal rest := rfl

theorem addProbes_false (s : SlotMap) (attr : Int) (frames : List JVMPICallFrame)
    (hashVal : Nat) (probes : List Nat)
    (h : (addProbes s attr frames hashVal probes).1 = false) :
    (addProbes s attr frames hashVal probes).2 = s ∧
    ∀ i ∈ probes, slotRejects (s ((i + hashVal) % kMaxStackTraces)) attr frames := by
  induction probes with
  | nil => exact ⟨rfl, by simp⟩
  | cons i rest ih =>
      rw [addProbes_cons] at h ⊢
      by_cases h1 : (s ((i + hashVal) % kMaxStackTraces)).count = 0
      · rw [if_pos h1] at h
        exact absurd h (by simp)
      · rw [if_neg h1] at h ⊢
        by_cases h2 : (s ((i + hashVal) % kMaxStackTraces)).count = kTraceCountLocked
        · rw [if_pos h2] at h ⊢
          rcases ih h with ⟨hs, hrest⟩
          refine ⟨hs, fun j hj => ?_⟩
          rcases List.mem_cons.mp hj with he | hm
          · subst he
            exact ⟨h1, Or.inl h2⟩
          · exact hrest j hm
        · rw [if_neg h2] at h ⊢
          by_cases h3 : addMatch (s ((i + hashVal) % kMaxStackTraces)) attr frames = true
          · rw [if_pos h3] at h
            exact absurd h (by simp)
          · rw [if_neg h3] at h ⊢
            rcases ih h with ⟨hs, hrest⟩
            refine ⟨hs, fun j hj => ?_⟩
            rcases List.mem_cons.mp hj with he | hm
            · subst he
              exact ⟨h1, Or.inr (by simpa using h3)⟩
            · exact hrest j hm

theorem addProbes_all_reject (s : SlotMap) (attr : Int) (frames : List JVMPICallFrame)
    (hashVal : Nat) (probes : List Nat)
    (h : ∀ i ∈ probes, slotRejects (s ((i + hashVal) % kMaxStackTraces)) attr frames) :
    addProbes s attr frames hashVal probes = (false, s) := by
  induction probes with
  | nil => rfl
  | cons i rest ih =>
      obtain ⟨hc, hcase⟩ := h i (List.mem_cons_self i rest)
      have hrest := fun j hj => h j (List.mem_cons_of_mem i hj)
      rw [addProbes_cons, if_neg hc]
      by_cases h2 : (s ((i + hashVal) % kMaxStackTraces)).count = kTraceCountLocked
      · rw [if_pos h2]
        exact ih hrest
      · rw [if_neg h2]
        rcases hcase with hl | hm
        · exact absurd hl h2
        · rw [if_neg (by simp [hm])]
          exact ih hrest

theorem addProbes_true (s : SlotMap) (attr : Int) (frames : List JVMPICallFrame)
    (hashVal : Nat) (probes : List Nat)
    (h : (addProbes s attr frames hashVal probes).1 = true) :
    ∃ i ∈ probes,
      ((s ((i + hashVal) % kMaxStackTraces)).count = 0 ∧
        (addProbes s attr frames hashVal probes).2 =
          setSlot s ((i + hashVal) % kMaxStackTraces) ⟨attr, frames, 1⟩) ∨
      ((s ((i + hashVal) % kMaxStackTraces)).count ≠ 0 ∧
        (s ((i + hashVal) % kMaxStackTraces)).count ≠ kTraceCountLocked ∧
        addMatch (s ((i + hashVal) % kMaxStackTraces)) attr frames = true ∧
        (addProbes s attr frames hashVal probes).2 =
          setSlot s ((i + hashVal) % kMaxStackTraces)
            { s ((i + hashVal) % kMaxStackTraces) with
                count := (s ((i + hashVal) % kMaxStackTraces)).count + 1 }) := by
  induction probes with
  | nil => simp [addProbes] at h
  | cons i rest ih =>
      rw [addProbes_cons] at h ⊢
      by_cases h1 : (s ((i + hashVal) % kMaxStackTraces)).count = 0
      · rw [if_pos h1] at h ⊢
        exact ⟨i, List.mem_cons_self i rest, Or.inl ⟨h1, rfl⟩⟩
      · rw [if_neg h1] at h ⊢
        by_cases h2 : (s ((i + hashVal) % kMaxStackTraces)).count = kTraceCountLocked
        · rw [if_pos h2] at h ⊢
          obtain ⟨j, hj, hcase⟩ := ih h
          exact ⟨j, List.mem_cons_of_mem i hj, hcase⟩
        · rw [if_neg h2] at h ⊢
          by_cases h3 : addMatch (s ((i + hashVal) % kMaxStackTraces)) attr frames = true
          · rw [if_pos h3] at h ⊢
            exact ⟨i, List.mem_cons_self i rest, Or.inr ⟨h1, h2, h3, rfl⟩⟩
          · rw [if_neg h3] at h ⊢
            obtain ⟨j, hj, hcase⟩ := ih h
            exact ⟨j, List.mem_cons_of_mem i hj, hcase⟩

theorem add_false_state (s : SlotMap) (attr : Int) (frames : List JVMPICallFrame)
    (h : (add s attr frames).1 = false) : (add s attr frames).2 = s :=
  (addProbes_false s attr frames _ _ h).1

theorem add_false_iff (s : SlotMap) (attr : Int) (frames : List JVMPICallFrame) :
    (add s attr frames).1 = false ↔
      ∀ idx < kMaxStackTraces, slotRejects (s idx) attr frames := by
  constructor
  · intro h idx hidx
    have hall := (addProbes_false s attr frames _ _ h).2
    set hv := calculateHash attr frames with hhv
    have hmem : (idx + (kMaxStackTraces - hv % kMaxStackTraces)) % kMaxStackTraces ∈
        List.range kMaxStackTraces := by
      refine List.mem_range.mpr ?_
      exact Nat.mod_lt _ (by decide)
    have heq : ((idx + (kMaxStackTraces - hv % kMaxStackTraces)) % kMaxStackTraces + hv) %
        kMaxStackTraces = idx := by
      have h2048 : 0 < kMaxStackTraces := by decide
      have hmod : hv % kMaxStackTraces < kMaxStackTraces := Nat.mod_lt _ h2048
      unfold kMaxStackTraces at *
      omega
    have := hall _ hmem
    rwa [heq] at this
  · intro h
    have := addProbes_all_reject s attr frames (calculateHash attr frames)
      (List.range kMaxStackTraces)
      (fun i _ => h _ (Nat.mod_lt _ (by decide)))
    unfold add
    rw [this]

theorem add_true_update (s : SlotMap) (attr : Int) (frames : List JVMPICallFrame)
    (h : (add s attr frames).1 = true) :
    ∃ idx < kMaxStackTraces,
      ((s idx).count = 0 ∧ (add s attr frames).2 = setSlot s idx ⟨attr, frames, 1⟩) ∨
      ((s idx).count ≠ 0 ∧ (s idx).count ≠ kTraceCountLocked ∧
        addMatch (s idx) attr frames = true ∧
        (add s attr frames).2 = setSlot s idx { s idx with count := (s idx).count + 1 }) := by
  obtain ⟨i, _, hcase⟩ := addProbes_true s attr frames _ _ h
  exact ⟨(i + calculateHash attr frames) % kMaxStackTraces, Nat.mod_lt _ (by decide), hcase⟩

theorem add_free_slot_true (s : SlotMap) (attr : Int) (frames : List JVMPICallFrame)
    (idx : Nat) (hidx : idx < kMaxStackTraces) (hfree : (s idx).count = 0) :
    (add s attr frames).1 = true := by
  by_contra h
  have hfalse : (add s attr frames).1 = false := Bool.not_eq_true _ ▸ (by simpa using h)
  exact ((add_false_iff s attr frames).mp hfalse idx hidx).1 hfree

/-! ## Counting lemmas for `Add` / `HarvestSamples` -/

theorem sum_map_update (L : List Nat) (g : Nat → Int) (idx : Nat) (v : Int) :
    L.Nodup → idx ∈ L →
    (L.map (fun j => if j = idx then v else g j)).sum = (L.map g).sum + v - g idx := by
  induction L with
  | nil => intro _ h; simp at h
  | cons a rest ih =>
      intro hnd hmem
      by_cases ha : a = idx
      · subst ha
        have hnotin : a ∉ rest := (List.nodup_cons.mp hnd).1
        have hcongr : rest.map (fun j => if j = a then v else g j) = rest.map g := by
          apply List.map_congr_left
          intro j hj
          have hja : j ≠ a := fun he => hnotin (he ▸ hj)
          simp [hja]
        have hhead : (if a = a then v else g a) = v := if_pos rfl
        simp only [List.map_cons, List.sum_cons, hcongr, hhead, if_true]
        ring
      · have hmem2 : idx ∈ rest := by
          rcases List.mem_cons.mp hmem with h | h
          · exact absurd h.symm ha
          · exact h
        simp only [List.map_cons, List.sum_cons, if_neg ha]
        rw [ih (List.nodup_cons.mp hnd).2 hmem2]
        ring

theorem slotSum_setSlot (s : SlotMap) (idx : Nat) (v : TraceData)
    (h : idx < kMaxStackTraces) :
    slotSum (setSlot s idx v) = slotSum s + v.count - (s idx).count := by
  unfold slotSum setSlot
  have hfun : ((List.range kMaxStackTraces).map
      (fun j => ((fun j => if j = idx then v else s j) j).count)) =
      (List.range kMaxStackTraces).map (fun j => if j = idx then v.count else (s j).count) := by
    apply List.map_congr_left
    intro j _
    by_cases hj : j = idx <;> simp [hj]
  rw [hfun]
  exact sum_map_update _ _ idx v.count (List.nodup_range _) (List.mem_range.mpr h)

theorem add_true_slotSum (s : SlotMap) (attr : Int) (frames : List JVMPICallFrame)
    (h : (add s attr frames).1 = true) :
    slotSum (add s attr frames).2 = slotSum s + 1 := by
  obtain ⟨idx, hidx, hcase⟩ := add_true_update s attr frames h
  rcases hcase with ⟨h0, heq⟩ | ⟨h0, h1, h2, heq⟩
  · rw [heq, slotSum_setSlot s idx _ hidx, h0]
    ring
  · rw [heq, slotSum_setSlot s idx _ hidx]
    ring

theorem add_preserves_wf (s : SlotMap) (attr : Int) (frames : List JVMPICallFrame)
    (hwf : slotsWellFormed s) (hne : frames ≠ []) :
    slotsWellFormed (add s attr frames).2 := by
  cases hb : (add s attr frames).1
  · rw [add_false_state s attr frames hb]
    exact hwf
  · obtain ⟨idx, hidx, hcase⟩ := add_true_update s attr frames hb
    rcases hcase with ⟨h0, heq⟩ | ⟨h0, h1, h2, heq⟩
    · rw [heq]
      intro j
      by_cases hj : j = idx
      · subst hj
        rw [setSlot_same]
        exact ⟨by norm_num, fun _ => hne⟩
      · rw [setSlot_other s idx _ hj]
        exact hwf j
    · rw [heq]
      intro j
      by_cases hj : j = idx
      · subst hj
        rw [setSlot_same]
        have hc := (hwf j).1
        refine ⟨?_, fun _ => ?_⟩
        · show (0 : Int) ≤ (s j).count + 1
          omega
        · show (s j).frames ≠ []
          exact (hwf j).2 h0
      · rw [setSlot_other s idx _ hj]
        exact hwf j

theorem emptySlots_wf : slotsWellFormed emptySlots :=
  fun _ => ⟨le_refl 0, fun h => absurd rfl h⟩

theorem runAdds_cons (s : SlotMap) (attr : Int) (frames : List JVMPICallFrame)
    (rest : List (Int × List JVMPICallFrame)) :
    runAdds s ((attr, frames) :: rest) =
      ((runAdds (add s attr frames).2 rest).1,
        (add s attr frames).1 && (runAdds (add s attr frames).2 rest).2) := rfl

theorem runAdds_true_slotSum (ops : List (Int × List JVMPICallFrame)) :
    ∀ s : SlotMap, (runAdds s ops).2 = true →
      slotSum (runAdds s ops).1 = slotSum s + ops.length := by
  induction ops with
  | nil =>
      intro s _
      show slotSum s = slotSum s + (([] : List (Int × List JVMPICallFrame)).length : Int)
      simp
  | cons op rest ih =>
      intro s h
      obtain ⟨attr, frames⟩ := op
      rw [runAdds_cons] at h
      dsimp only at h
      rw [Bool.and_eq_true] at h
      obtain ⟨h1, h2⟩ := h
      rw [runAdds_cons]
      show slotSum (runAdds (add s attr frames).2 rest).1 = _
      rw [ih _ h2, add_true_slotSum s attr frames h1]
      push_cast [List.length_cons]
      ring

theorem runAdds_preserves_wf (ops : List (Int × List JVMPICallFrame)) :
    ∀ s : SlotMap, slotsWellFormed s → (∀ op ∈ ops, op.2 ≠ []) →
      slotsWellFormed (runAdds s ops).1 := by
  induction ops with
  | nil => intro s hwf _; exact hwf
  | cons op rest ih =>
      intro s hwf hne
      obtain ⟨attr, frames⟩ := op
      rw [runAdds_cons]
      dsimp only
      exact ih _ (add_preserves_wf s attr frames hwf (hne _ (List.mem_cons_self _ _)))
        (fun o ho => hne o (List.mem_cons_of_mem _ ho))

theorem tmSum_tmAdd (m : TraceMultiset) (attr : Int) (frames : List JVMPICallFrame)
    (c : Int) : tmSum (tmAdd m attr frames c) = tmSum m + c := by
  induction m with
  | nil => simp [tmAdd, tmSum]
  | cons b rest ih =>
      obtain ⟨k, c2⟩ := b
      show tmSum (if callTraceEqual k ⟨attr, frames⟩ then (k, c2 + c) :: rest
        else (k, c2) :: tmAdd rest attr frames c) = _
      by_cases hk : callTraceEqual k ⟨attr, frames⟩ = true
      · rw [if_pos hk]
        simp only [tmSum, List.map_cons, List.sum_cons]
        ring
      · rw [if_neg hk]
        simp only [tmSum, List.map_cons, List.sum_cons] at ih ⊢
        rw [ih]
        ring

theorem extract_at_skip (s : SlotMap) (i : Nat) (hi : i < kMaxStackTraces)
    (hc : (s i).count ≤ 0) :
    extract s (i : Int) (kMaxFramesToCapture : Int) = ⟨0, none, s⟩ := by
  unfold extract
  rw [if_neg (by push_neg; constructor <;> omega)]
  simp only [Int.toNat_natCast]
  rw [if_pos hc]

theorem extract_at_occupied (s : SlotMap) (i : Nat) (hi : i < kMaxStackTraces)
    (hc : 0 < (s i).count) :
    extract s (i : Int) (kMaxFramesToCapture : Int) =
      ⟨capFrames (s i).frames.length (kMaxFramesToCapture : Int),
       some ((s i).attr,
         (s i).frames.take (capFrames (s i).frames.length (kMaxFramesToCapture : Int)).toNat,
         (s i).count),
       setSlot s i { s i with count := 0 }⟩ := by
  unfold extract
  rw [if_neg (by push_neg; constructor <;> omega)]
  simp only [Int.toNat_natCast]
  rw [if_neg (by omega)]

theorem capFrames_pos (len : Nat) (hlen : 0 < len) :
    0 < capFrames len (kMaxFramesToCapture : Int) := by
  unfold capFrames kMaxFramesToCapture
  split_ifs <;> omega

theorem harvestIdx_tmSum (L : List Nat) :
    ∀ (s : SlotMap) (m : TraceMultiset) (tc : Nat), L.Nodup →
      (∀ i ∈ L, i < kMaxStackTraces) →
      (∀ i ∈ L, 0 ≤ (s i).count ∧ ((s i).count ≠ 0 → (s i).frames ≠ [])) →
      tmSum (harvestIdx L s m tc).2.1 = tmSum m + ((L.map fun i => (s i).count)).sum := by
  induction L with
  | nil => intro s m tc _ _ _; simp [harvestIdx]
  | cons i rest ih =>
      intro s m tc hnd hlt hwf
      have hi : i < kMaxStackTraces := hlt i (List.mem_cons_self i rest)
      have hnotin : i ∉ rest := (List.nodup_cons.mp hnd).1
      by_cases hc : (s i).count ≤ 0
      · have hex := extract_at_skip s i hi hc
        have hc0 : (s i).count = 0 := le_antisymm hc (hwf i (List.mem_cons_self i rest)).1
        simp only [harvestIdx, hex]
        rw [ih s m tc (List.nodup_cons.mp hnd).2
          (fun j hj => hlt j (List.mem_cons_of_mem i hj))
          (fun j hj => hwf j (List.mem_cons_of_mem i hj))]
        simp [hc0]
      · push_neg at hc
        have hne : (s i).frames ≠ [] := (hwf i (List.mem_cons_self i rest)).2 (by omega)
        have hex := extract_at_occupied s i hi hc
        have hpos := capFrames_pos (s i).frames.length (List.length_pos.mpr hne)
        simp only [harvestIdx, hex]
        rw [if_pos ⟨hpos, hc⟩]
        rw [ih _ _ _ (List.nodup_cons.mp hnd).2
          (fun j hj => hlt j (List.mem_cons_of_mem i hj))
          (fun j hj => by
            rw [setSlot_other s i _ (fun he => hnotin (he ▸ hj))]
            exact hwf j (List.mem_cons_of_mem i hj))]
        rw [tmSum_tmAdd]
        have hmap : rest.map (fun j => ((setSlot s i { s i with count := 0 }) j).count) =
            rest.map (fun j => (s j).count) := by
          apply List.map_congr_left
          intro j hj
          rw [setSlot_other s i _ (fun he => hnotin (he ▸ hj))]
        rw [hmap]
        simp only [List.map_cons, List.sum_cons]
        ring

/-! ## C1: no increment is lost (amended: traces must have at least one frame) -/

/-- C1 (amended): for every sequence of `Add(attribute, trace)` calls on an
initially empty `AsyncSafeTraceMultiset` in which every trace has between 1
and `kMaxFramesToCapture` frames, if every call returned `true` then one full
drain (`HarvestSamples` over all slots) transfers a total count equal to the
number of `Add` calls — no increment is lost.  (The original claim, without
the at-least-one-frame proviso, is refuted by
`harvest_total_count_counterexample`: a zero-frame trace is accepted by `Add`
but its count is discarded by `HarvestSamples`.) -/
theorem harvest_total_count_eq_adds (ops : List (Int × List JVMPICallFrame))
    (hval : ∀ op ∈ ops, op.2 ≠ [] ∧ op.2.length ≤ kMaxFramesToCapture)
    (hok : (runAdds emptySlots ops).2 = true) :
    tmSum (harvestSamples (runAdds emptySlots ops).1 []).2.1 = ops.length := by
  have hwf : slotsWellFormed (runAdds emptySlots ops).1 :=
    runAdds_preserves_wf ops emptySlots emptySlots_wf (fun op hop => (hval op hop).1)
  have hsum := runAdds_true_slotSum ops emptySlots hok
  have h := harvestIdx_tmSum (List.range kMaxStackTraces) (runAdds emptySlots ops).1 [] 0
    (List.nodup_range _) (fun i hi => List.mem_range.mp hi)
    (fun i _ => hwf i)
  unfold harvestSamples
  rw [h]
  have hempty : slotSum emptySlots = 0 := by
    simp [slotSum, emptySlots]
  rw [show tmSum [] = 0 from rfl, zero_add]
  rw [show ((List.range kMaxStackTraces).map
      (fun i => ((runAdds emptySlots ops).1 i).count)).sum =
      slotSum (runAdds emptySlots ops).1 from rfl]
  rw [hsum, hempty, zero_add]

/-- A drain over slots whose frames are all empty adds nothing to the
`TraceMultiset` (even though it clears the occupied slots). -/
theorem harvestIdx_empty_frames (L : List Nat) :
    ∀ (s : SlotMap) (m : TraceMultiset) (tc : Nat), (∀ i, (s i).frames = []) →
      (harvestIdx L s m tc).2.1 = m := by
  induction L with
  | nil => intro s m tc _; rfl
  | cons i rest ih =>
      intro s m tc hfr
      by_cases hi : i < kMaxStackTraces
      · by_cases hc : (s i).count ≤ 0
        · simp only [harvestIdx, extract_at_skip s i hi hc]
          exact ih s m tc hfr
        · push_neg at hc
          have hex := extract_at_occupied s i hi hc
          have hcap0 : capFrames (s i).frames.length (kMaxFramesToCapture : Int) = 0 := by
            rw [hfr i]
            decide
          simp only [harvestIdx, hex]
          rw [if_neg (by rw [hcap0]; simp)]
          refine ih _ m tc ?_
          intro j
          by_cases hj : j = i
          · subst hj
            rw [setSlot_same]
            exact hfr j
          · rw [setSlot_other s i _ hj]
            exact hfr j
      · have hex : extract s (i : Int) (kMaxFramesToCapture : Int) = ⟨0, none, s⟩ := by
          unfold extract
          rw [if_pos (Or.inr (by omega))]
        simp only [harvestIdx, hex]
        exact ih s m tc hfr

/-- Counterexample to C1 as stated: a single successful `Add` of a zero-frame
trace, followed by a full drain, transfers a total count of 0, not 1. -/
theorem harvest_total_count_counterexample :
    (runAdds emptySlots [(0, [])]).2 = true ∧
    tmSum (harvestSamples (runAdds emptySlots [(0, [])]).1 []).2.1 = 0 ∧
    tmSum (harvestSamples (runAdds emptySlots [(0, [])]).1 []).2.1 ≠
      (([((0 : Int), ([] : List JVMPICallFrame))]).length : Int) := by
  have h1 : (add emptySlots 0 []).1 = true :=
    add_free_slot_true emptySlots 0 [] 0 (by decide) rfl
  have hrun : (runAdds emptySlots [(0, [])]).2 = true := by
    rw [runAdds_cons]
    dsimp only
    rw [h1]
    rfl
  have hstate : (runAdds emptySlots [(0, [])]).1 = (add emptySlots 0 []).2 := rfl
  obtain ⟨idx, hidx, hcase⟩ := add_true_update emptySlots 0 [] h1
  have hfr : ∀ i, ((add emptySlots 0 []).2 i).frames = [] := by
    rcases hcase with ⟨h0, heq⟩ | ⟨h0, _, _, _⟩
    · intro i
      rw [heq]
      by_cases hi : i = idx
      · subst hi
        rw [setSlot_same]
      · rw [setSlot_other _ idx _ hi]
        rfl
    · exact absurd rfl h0
  have hm : (harvestSamples (add emptySlots 0 []).2 []).2.1 = [] :=
    harvestIdx_empty_frames (List.range kMaxStackTraces) _ [] 0 hfr
  rw [hstate, hm]
  exact ⟨hrun, rfl, by decide⟩

/-- Witness for C1 (amended): two adds of the same one-frame trace drain to a
total count of 2. -/
theorem harvest_total_count_eq_adds_witness :
    (∀ op ∈ [((3 : Int), [(⟨5, 77⟩ : JVMPICallFrame)]), (3, [⟨5, 77⟩])],
      op.2 ≠ [] ∧ op.2.length ≤ kMaxFramesToCapture) ∧
    (runAdds emptySlots [(3, [⟨5, 77⟩]), (3, [⟨5, 77⟩])]).2 = true ∧
    tmSum (harvestSamples
      (runAdds emptySlots [(3, [⟨5, 77⟩]), (3, [⟨5, 77⟩])]).1 []).2.1 = 2 := by
  have hv : ∀ op ∈ [((3 : Int), [(⟨5, 77⟩ : JVMPICallFrame)]), (3, [⟨5, 77⟩])],
      op.2 ≠ [] ∧ op.2.length ≤ kMaxFramesToCapture := by decide
  have hok : (runAdds emptySlots [((3 : Int), [(⟨5, 77⟩ : JVMPICallFrame)]),
      (3, [⟨5, 77⟩])]).2 = true := by decide
  exact ⟨hv, hok, harvest_total_count_eq_adds _ hv hok⟩

/-! ## Occupancy bookkeeping for the saturation claim -/

theorem filterMap_perm_cons_of_update {α : Type} (L : List Nat) (f g : Nat → Option α)
    (idx : Nat) (k : α) :
    L.Nodup → idx ∈ L → (∀ j ∈ L, j ≠ idx → f j = g j) → f idx = none → g idx = some k →
    (L.filterMap g).Perm (k :: L.filterMap f) := by
  induction L with
  | nil => intro _ h _ _ _; simp at h
  | cons a rest ih =>
      intro hnd hmem hagree hf hg
      by_cases ha : a = idx
      · subst ha
        have hnotin : a ∉ rest := (List.nodup_cons.mp hnd).1
        have hcongr : rest.filterMap g = rest.filterMap f := by
          apply List.filterMap_congr
          intro j hj
          exact (hagree j (List.mem_cons_of_mem a hj) (fun he => hnotin (he ▸ hj))).symm
        rw [List.filterMap_cons_some hg, List.filterMap_cons_none hf, hcongr]
      · have hmem2 : idx ∈ rest := by
          rcases List.mem_cons.mp hmem with h | h
          · exact absurd h.symm ha
          · exact h
        have hfa : f a = g a := hagree a (List.mem_cons_self a rest) ha
        have ihr := ih (List.nodup_cons.mp hnd).2 hmem2
          (fun j hj hji => hagree j (List.mem_cons_of_mem a hj) hji) hf hg
        cases hga : g a with
        | none =>
            rw [List.filterMap_cons_none hga, List.filterMap_cons_none (hfa.trans hga)]
            exact ihr
        | some b =>
            rw [List.filterMap_cons_some hga, List.filterMap_cons_some (hfa.trans hga)]
            exact (ihr.cons b).trans (List.Perm.swap k b _)

theorem keysList_fill_free (s : SlotMap) (idx : Nat) (v : TraceData)
    (hidx : idx < kMaxStackTraces) (hfree : (s idx).count = 0) (hv : v.count ≠ 0) :
    (keysList (setSlot s idx v)).Perm (keyOf v :: keysList s) := by
  apply filterMap_perm_cons_of_update _ _ _ idx (keyOf v) (List.nodup_range _)
    (List.mem_range.mpr hidx)
  · intro j _ hji
    unfold slotKeyOpt
    rw [setSlot_other s idx v hji]
  · unfold slotKeyOpt
    rw [hfree]
    simp
  · unfold slotKeyOpt
    rw [setSlot_same]
    simp [hv]

theorem keysList_bump (s : SlotMap) (idx : Nat) (c : Int)
    (hocc : (s idx).count ≠ 0) (hc : c ≠ 0) :
    keysList (setSlot s idx { s idx with count := c }) = keysList s := by
  apply List.filterMap_congr
  intro j _
  unfold slotKeyOpt
  by_cases hj : j = idx
  · subst hj
    rw [setSlot_same]
    simp only [hc, hocc, ne_eq, not_false_eq_true, if_pos]
    rfl
  · rw [setSlot_other s idx _ hj]

theorem keysList_emptySlots : keysList emptySlots = [] := by
  have : ∀ i ∈ List.range kMaxStackTraces, slotKeyOpt emptySlots i = none := by
    intro i _
    unfold slotKeyOpt emptySlots
    simp
  unfold keysList
  rw [List.filterMap_congr this]
  simp

theorem mem_keysList_of_occupied (s : SlotMap) (idx : Nat)
    (hidx : idx < kMaxStackTraces) (hocc : (s idx).count ≠ 0) :
    keyOf (s idx) ∈ keysList s :=
  List.mem_filterMap.mpr ⟨idx, List.mem_range.mpr hidx, by simp [slotKeyOpt, hocc]⟩

theorem length_filterMap_all_some {α : Type} (L : List Nat) (f : Nat → Option α)
    (h : ∀ a ∈ L, (f a).isSome) : (L.filterMap f).length = L.length := by
  induction L with
  | nil => rfl
  | cons a rest ih =>
      obtain ⟨b, hb⟩ := Option.isSome_iff_exists.mp (h a (List.mem_cons_self a rest))
      rw [List.filterMap_cons_some hb, List.length_cons, List.length_cons,
        ih (fun x hx => h x (List.mem_cons_of_mem a hx))]

theorem exists_free_slot (s : SlotMap) (h : (keysList s).length < kMaxStackTraces) :
    ∃ idx < kMaxStackTraces, (s idx).count = 0 := by
  by_contra hno
  push_neg at hno
  have hall : ∀ i ∈ List.range kMaxStackTraces, (slotKeyOpt s i).isSome := by
    intro i hi
    have := hno i (List.mem_range.mp hi)
    simp [slotKeyOpt, this]
  have := length_filterMap_all_some (List.range kMaxStackTraces) (slotKeyOpt s) hall
  unfold keysList at h
  rw [this, List.length_range] at h
  exact lt_irrefl _ h

theorem all_some_of_length_filterMap {α : Type} (L : List Nat) (f : Nat → Option α) :
    (L.filterMap f).length = L.length → ∀ a ∈ L, (f a).isSome := by
  induction L with
  | nil => intro _ a ha; simp at ha
  | cons a rest ih =>
      intro hlen b hb
      cases hfa : f a with
      | none =>
          exfalso
          rw [List.filterMap_cons_none hfa] at hlen
          have := List.length_filterMap_le f rest
          simp [List.length_cons] at hlen
          omega
      | some c =>
          rcases List.mem_cons.mp hb with hba | hbr
          · subst hba
            simp [hfa]
          · rw [List.filterMap_cons_some hfa] at hlen
            simp only [List.length_cons, Nat.add_right_cancel_iff] at hlen
            exact ih hlen b hbr

theorem all_occupied_of_keysList_full (s : SlotMap)
    (h : (keysList s).length = kMaxStackTraces) :
    ∀ idx < kMaxStackTraces, (s idx).count ≠ 0 := by
  intro idx hidx
  have := all_some_of_length_filterMap (List.range kMaxStackTraces) (slotKeyOpt s)
    (by rw [← List.length_range kMaxStackTraces] at h; exact h) idx (List.mem_range.mpr hidx)
  unfold slotKeyOpt at this
  by_cases hc : (s idx).count = 0
  · rw [if_neg (by simp [hc])] at this
    simp at this
  · exact hc

/-- Inserting pairwise-distinct traces (all fresh for the current contents)
succeeds call by call, occupying exactly one free slot per trace. -/
theorem runAdds_distinct (ops : List (Int × List JVMPICallFrame)) :
    ∀ (s : SlotMap) (ts : List CallTrace),
      (keysList s).Perm ts →
      (∀ i, 0 ≤ (s i).count) →
      (∀ op ∈ ops, (⟨op.1, op.2⟩ : CallTrace) ∉ ts) →
      (ops.map (fun op => (⟨op.1, op.2⟩ : CallTrace))).Nodup →
      ts.length + ops.length ≤ kMaxStackTraces →
      (runAdds s ops).2 = true ∧
      (keysList (runAdds s ops).1).Perm (ts ++ ops.map (fun op => ⟨op.1, op.2⟩)) ∧
      (∀ i, 0 ≤ ((runAdds s ops).1 i).count) := by
  induction ops with
  | nil =>
      intro s ts hperm hpos _ _ _
      exact ⟨rfl, by simpa using hperm, hpos⟩
  | cons op rest ih =>
      intro s ts hperm hpos hfresh hnd hlen
      obtain ⟨attr, frames⟩ := op
      simp only [List.map_cons] at hnd
      obtain ⟨hndhead, hndtail⟩ := List.nodup_cons.mp hnd
      simp only [List.length_cons] at hlen
      have hlts : (keysList s).length < kMaxStackTraces := by
        have hle := hperm.length_eq
        omega
      obtain ⟨idx0, hidx0, hfree0⟩ := exists_free_slot s hlts
      have htrue : (add s attr frames).1 = true :=
        add_free_slot_true s attr frames idx0 hidx0 hfree0
      obtain ⟨idx, hidx, hcase⟩ := add_true_update s attr frames htrue
      have hkey : (⟨attr, frames⟩ : CallTrace) ∉ ts := hfresh _ (List.mem_cons_self _ _)
      rcases hcase with ⟨h0, heq⟩ | ⟨h0, h1, h2, heq⟩
      · have hpermNew : (keysList (add s attr frames).2).Perm
            ((⟨attr, frames⟩ : CallTrace) :: ts) := by
          rw [heq]
          exact (keysList_fill_free s idx ⟨attr, frames, 1⟩ hidx h0 (by norm_num)).trans
            (List.Perm.cons _ hperm)
        have hposNew : ∀ i, 0 ≤ ((add s attr frames).2 i).count := by
          intro i
          rw [heq]
          by_cases hi : i = idx
          · subst hi
            rw [setSlot_same]
            exact zero_le_one
          · rw [setSlot_other s idx _ hi]
            exact hpos i
        have hfreshNew : ∀ o ∈ rest, (⟨o.1, o.2⟩ : CallTrace) ∉
            ((⟨attr, frames⟩ : CallTrace) :: ts) := by
          intro o ho hmem
          rcases List.mem_cons.mp hmem with hh | hh
          · exact hndhead (hh ▸ List.mem_map_of_mem _ ho)
          · exact hfresh o (List.mem_cons_of_mem _ ho) hh
        have hlenNew : ((⟨attr, frames⟩ : CallTrace) :: ts).length + rest.length ≤
            kMaxStackTraces := by
          simp only [List.length_cons]
          omega
        obtain ⟨hok, hperm2, hpos2⟩ :=
          ih (add s attr frames).2 (⟨attr, frames⟩ :: ts) hpermNew hposNew hfreshNew
            hndtail hlenNew
        refine ⟨?_, ?_, ?_⟩
        · rw [runAdds_cons]
          dsimp only
          rw [htrue, hok]
          rfl
        · rw [runAdds_cons]
          dsimp only
          refine hperm2.trans ?_
          simp only [List.cons_append, List.map_cons]
          exact List.perm_middle.symm
        · rw [runAdds_cons]
          dsimp only
          exact hpos2
      · exfalso
        have hkeq : keyOf (s idx) = ⟨attr, frames⟩ := by
          obtain ⟨ha, hf⟩ := (addMatch_iff (s idx) attr frames).mp h2
          unfold keyOf
          rw [← ha, ← hf]
        have hmem := mem_keysList_of_occupied s idx hidx h0
        rw [hkeq] at hmem
        exact hkey (hperm.mem_iff.mp hmem)

theorem tmAdd_append_of_fresh (m : TraceMultiset) (attr : Int)
    (frames : List JVMPICallFrame) (c : Int)
    (h : (⟨attr, frames⟩ : CallTrace) ∉ tmKeys m) :
    tmAdd m attr frames c = (m ++ [(⟨attr, frames⟩, c)] : List (CallTrace × Int)) := by
  induction m with
  | nil => rfl
  | cons b rest ih =>
      obtain ⟨k, c2⟩ := b
      simp only [tmKeys, List.map_cons, List.mem_cons, not_or] at h
      have hk : ¬ callTraceEqual k ⟨attr, frames⟩ = true := by
        intro he
        exact h.1 (((callTraceEqual_iff _ _).mp he).symm)
      show (if callTraceEqual k ⟨attr, frames⟩ then _ else _) = _
      rw [if_neg hk, ih (by simpa [tmKeys] using h.2)]
      rfl

/-- Draining a list of slots with pairwise-distinct occupied keys, all fresh
for the destination multiset, creates one new bucket per occupied slot with a
nonempty frame list. -/
theorem harvestIdx_buckets (L : List Nat) :
    ∀ (s : SlotMap) (m : TraceMultiset) (tc : Nat),
      L.Nodup → (∀ i ∈ L, i < kMaxStackTraces) →
      (∀ i ∈ L, 0 ≤ (s i).count ∧ (s i).frames.length ≤ kMaxFramesToCapture) →
      (L.filterMap (slotKeyOpt s)).Nodup →
      (∀ k ∈ L.filterMap (slotKeyOpt s), k ∉ tmKeys m) →
      (harvestIdx L s m tc).2.1.length =
        m.length + L.countP (fun i => decide (0 < (s i).count) && !(s i).frames.isEmpty) := by
  induction L with
  | nil => intro s m tc _ _ _ _ _; simp [harvestIdx]
  | cons i rest ih =>
      intro s m tc hnd hlt hvalid hkeysnd hfresh
      have hi : i < kMaxStackTraces := hlt i (List.mem_cons_self _ _)
      have hnotin : i ∉ rest := (List.nodup_cons.mp hnd).1
      have hndtail : rest.Nodup := (List.nodup_cons.mp hnd).2
      have hposi := (hvalid i (List.mem_cons_self _ _)).1
      have hlt2 := fun j hj => hlt j (List.mem_cons_of_mem i hj)
      have hvalid2 := fun j hj => hvalid j (List.mem_cons_of_mem i hj)
      by_cases hc : (s i).count ≤ 0
      · have hc0 : (s i).count = 0 := le_antisymm hc hposi
        have hex := extract_at_skip s i hi hc
        have hkey : slotKeyOpt s i = none := by simp [slotKeyOpt, hc0]
        rw [List.filterMap_cons_none hkey] at hkeysnd hfresh
        simp only [harvestIdx, hex]
        rw [ih s m tc hndtail hlt2 hvalid2 hkeysnd hfresh]
        rw [List.countP_cons]
        have hp : (decide (0 < (s i).count) && !(s i).frames.isEmpty) = false := by
          rw [hc0]
          simp
        rw [hp]
        simp
      · push_neg at hc
        have hex := extract_at_occupied s i hi hc
        have hkeysome : slotKeyOpt s i = some (keyOf (s i)) := by
          unfold slotKeyOpt
          rw [if_pos (by omega : (s i).count ≠ 0)]
        rw [List.filterMap_cons_some hkeysome] at hkeysnd hfresh
        obtain ⟨hheadfresh, hkeystail⟩ := List.nodup_cons.mp hkeysnd
        -- the slot contents after the extraction
        have hcongr : rest.filterMap (slotKeyOpt (setSlot s i { s i with count := 0 })) =
            rest.filterMap (slotKeyOpt s) := by
          apply List.filterMap_congr
          intro j hj
          unfold slotKeyOpt
          rw [setSlot_other s i _ (fun he => hnotin (he ▸ hj))]
        have hvalid3 : ∀ j ∈ rest,
            0 ≤ ((setSlot s i { s i with count := 0 }) j).count ∧
            ((setSlot s i { s i with count := 0 }) j).frames.length ≤ kMaxFramesToCapture := by
          intro j hj
          rw [setSlot_other s i _ (fun he => hnotin (he ▸ hj))]
          exact hvalid2 j hj
        by_cases hfe : (s i).frames = []
        · have hcap0 : capFrames (s i).frames.length (kMaxFramesToCapture : Int) = 0 := by
            rw [hfe]
            decide
          simp only [harvestIdx, hex]
          rw [if_neg (by rw [hcap0]; simp)]
          rw [ih _ m tc hndtail hlt2 hvalid3 (by rw [hcongr]; exact hkeystail)
            (by rw [hcongr]; exact fun k hk => hfresh k (List.mem_cons_of_mem _ hk))]
          have hcnt : rest.countP (fun j =>
              decide (0 < ((setSlot s i { s i with count := 0 }) j).count) &&
                !((setSlot s i { s i with count := 0 }) j).frames.isEmpty) =
              rest.countP (fun j => decide (0 < (s j).count) && !(s j).frames.isEmpty) :=
            List.countP_congr (fun j hj => by
              rw [setSlot_other s i _ (fun he => hnotin (he ▸ hj))])
          rw [hcnt, List.countP_cons]
          have hp : (decide (0 < (s i).count) && !(s i).frames.isEmpty) = false := by
            rw [hfe]
            simp
          rw [hp]
          simp
        · have hlen128 := (hvalid i (List.mem_cons_self _ _)).2
          have hcap : capFrames (s i).frames.length (kMaxFramesToCapture : Int) =
              ((s i).frames.length : Int) := by
            unfold capFrames
            rw [if_neg (by push_neg; exact_mod_cast hlen128)]
          have htake : (s i).frames.take
              (capFrames (s i).frames.length (kMaxFramesToCapture : Int)).toNat =
              (s i).frames := by
            rw [hcap, Int.toNat_natCast]
            exact List.take_length _
          have hpos : 0 < capFrames (s i).frames.length (kMaxFramesToCapture : Int) :=
            capFrames_pos _ (List.length_pos.mpr hfe)
          have hfreshi : (⟨(s i).attr, (s i).frames⟩ : CallTrace) ∉ tmKeys m :=
            hfresh (keyOf (s i)) (List.mem_cons_self _ _)
          have htm : tmAdd m (s i).attr (s i).frames (s i).count =
              (m ++ [(⟨(s i).attr, (s i).frames⟩, (s i).count)] : List (CallTrace × Int)) :=
            tmAdd_append_of_fresh m _ _ _ hfreshi
          simp only [harvestIdx, hex]
          rw [if_pos ⟨hpos, hc⟩, htake, htm]
          have hkeysapp : tmKeys (m ++ [(⟨(s i).attr, (s i).frames⟩, (s i).count)] :
                List (CallTrace × Int)) =
              (tmKeys m ++ [keyOf (s i)] : List CallTrace) := by
            show tmKeys (m ++ [(⟨(s i).attr, (s i).frames⟩, (s i).count)] :
              List (CallTrace × Int)) = _
            unfold tmKeys keyOf
            rw [List.map_append]
            rfl
          rw [ih _ _ _ hndtail hlt2 hvalid3 (by rw [hcongr]; exact hkeystail) ?_]
          · have hcnt : rest.countP (fun j =>
                decide (0 < ((setSlot s i { s i with count := 0 }) j).count) &&
                  !((setSlot s i { s i with count := 0 }) j).frames.isEmpty) =
                rest.countP (fun j => decide (0 < (s j).count) && !(s j).frames.isEmpty) :=
              List.countP_congr (fun j hj => by
                rw [setSlot_other s i _ (fun he => hnotin (he ▸ hj))])
            rw [hcnt, List.length_append, List.countP_cons]
            have hp : (decide (0 < (s i).count) && !(s i).frames.isEmpty) = true := by
              simp [hc, hfe]
            rw [hp]
            simp only [List.length_singleton, if_pos]
            omega
          · rw [hcongr]
            intro k hk
            rw [hkeysapp]
            intro hmem
            rcases List.mem_append.mp hmem with hmem | hmem
            · exact hfresh k (List.mem_cons_of_mem _ hk) hmem
            · rw [List.mem_singleton] at hmem
              exact hheadfresh (hmem ▸ hk)

/-- Filling the set with `kMaxStackTraces` pairwise-distinct traces: every
call succeeds, any further distinct trace is rejected, and a full drain
creates one bucket per trace with a nonempty frame list. -/
theorem runAdds_full_drain (ops : List (Int × List JVMPICallFrame))
    (hlen : ops.length = kMaxStackTraces)
    (hnd : (ops.map (fun op => (⟨op.1, op.2⟩ : CallTrace))).Nodup)
    (hframes : ∀ op ∈ ops, op.2.length ≤ kMaxFramesToCapture) :
    (runAdds emptySlots ops).2 = true ∧
    (∀ a f, (⟨a, f⟩ : CallTrace) ∉ ops.map (fun op => (⟨op.1, op.2⟩ : CallTrace)) →
      (add (runAdds emptySlots ops).1 a f).1 = false) ∧
    (harvestSamples (runAdds emptySlots ops).1 []).2.1.length =
      (ops.map (fun op => (⟨op.1, op.2⟩ : CallTrace))).countP
        (fun k => !k.frames.isEmpty) := by
  obtain ⟨hok, hperm, hpos⟩ := runAdds_distinct ops emptySlots []
    (by rw [keysList_emptySlots]) (fun i => le_refl 0) (by simp) hnd
    (by rw [hlen]; simp)
  have hperm2 : (keysList (runAdds emptySlots ops).1).Perm
      (ops.map fun op => (⟨op.1, op.2⟩ : CallTrace)) := by simpa using hperm
  have hfullen : (keysList (runAdds emptySlots ops).1).length = kMaxStackTraces := by
    rw [hperm2.length_eq, List.length_map, hlen]
  have hallocc := all_occupied_of_keysList_full _ hfullen
  have hkeymem : ∀ idx < kMaxStackTraces,
      keyOf ((runAdds emptySlots ops).1 idx) ∈
        ops.map (fun op => (⟨op.1, op.2⟩ : CallTrace)) :=
    fun idx hidx => hperm2.mem_iff.mp
      (mem_keysList_of_occupied _ idx hidx (hallocc idx hidx))
  refine ⟨hok, ?_, ?_⟩
  · intro a f hfresh
    rw [add_false_iff]
    intro idx hidx
    refine ⟨hallocc idx hidx, Or.inr ?_⟩
    cases hm : addMatch ((runAdds emptySlots ops).1 idx) a f
    · rfl
    · exfalso
      obtain ⟨ha, hf⟩ := (addMatch_iff _ _ _).mp hm
      apply hfresh
      have := hkeymem idx hidx
      unfold keyOf at this
      rw [← ha, ← hf] at this
      exact this
  · have hvalid : ∀ i ∈ List.range kMaxStackTraces,
        0 ≤ ((runAdds emptySlots ops).1 i).count ∧
        ((runAdds emptySlots ops).1 i).frames.length ≤ kMaxFramesToCapture := by
      intro i hi
      refine ⟨hpos i, ?_⟩
      have hmem := hkeymem i (List.mem_range.mp hi)
      obtain ⟨op, hop, hkey⟩ := List.mem_map.mp hmem
      have : op.2 = ((runAdds emptySlots ops).1 i).frames := congrArg CallTrace.frames hkey
      rw [← this]
      exact hframes op hop
    have hkeysnd : ((List.range kMaxStackTraces).filterMap
        (slotKeyOpt (runAdds emptySlots ops).1)).Nodup :=
      hperm2.symm.nodup hnd
    have hb := harvestIdx_buckets (List.range kMaxStackTraces) (runAdds emptySlots ops).1 [] 0
      (List.nodup_range _) (fun i hi => List.mem_range.mp hi) hvalid hkeysnd
      (by intro k _ hk; simp [tmKeys] at hk)
    unfold harvestSamples
    rw [hb]
    have h1 : (keysList (runAdds emptySlots ops).1).countP (fun k => !k.frames.isEmpty) =
        (ops.map (fun op => (⟨op.1, op.2⟩ : CallTrace))).countP (fun k => !k.frames.isEmpty) :=
      hperm2.countP_eq _
    have h2 : (keysList (runAdds emptySlots ops).1).countP (fun k => !k.frames.isEmpty) =
        (List.range kMaxStackTraces).countP
          (fun i => ((slotKeyOpt (runAdds emptySlots ops).1 i).map
            (fun k => !k.frames.isEmpty)).getD false) := by
      unfold keysList
      exact List.countP_filterMap _ _ _
    have h3 : (List.range kMaxStackTraces).countP
        (fun i => ((slotKeyOpt (runAdds emptySlots ops).1 i).map
          (fun k => !k.frames.isEmpty)).getD false) =
        (List.range kMaxStackTraces).countP
          (fun i => decide (0 < ((runAdds emptySlots ops).1 i).count) &&
            !((runAdds emptySlots ops).1 i).frames.isEmpty) := by
      apply List.countP_congr
      intro i hi
      have hocc := hallocc i (List.mem_range.mp hi)
      have hcpos : 0 < ((runAdds emptySlots ops).1 i).count := by
        have := hpos i
        omega
      unfold slotKeyOpt keyOf
      rw [if_pos hocc]
      simp [hcpos]
    rw [← h3, ← h2, h1]
    simp

/-! ## C4: saturation (amended: 2048 buckets require nonempty traces) -/

/-- C4 (amended): `Add` returns `false` exactly when all `kMaxStackTraces`
(2048) probed slots reject the sample.  In particular, after inserting 2048
pairwise-distinct traces into an empty set (each with 1 to 128 frames), every
insertion succeeds, one further `Add` of a distinct trace returns `false`, the
signal-handler accounting increments `unknown_stack_count` by one, and a full
drain yields exactly 2048 buckets.  (Without the at-least-one-frame proviso
the bucket count can be smaller — see `add_saturation_counterexample`.) -/
theorem add_saturation (ops : List (Int × List JVMPICallFrame))
    (newAttr : Int) (newFrames : List JVMPICallFrame)
    (hlen : ops.length = kMaxStackTraces)
    (hnd : (ops.map (fun op => (⟨op.1, op.2⟩ : CallTrace))).Nodup)
    (hval : ∀ op ∈ ops, op.2 ≠ [] ∧ op.2.length ≤ kMaxFramesToCapture)
    (hfresh : (⟨newAttr, newFrames⟩ : CallTrace) ∉
      ops.map (fun op => (⟨op.1, op.2⟩ : CallTrace))) :
    (∀ (s : SlotMap) (a : Int) (f : List JVMPICallFrame),
      (add s a f).1 = false ↔ ∀ idx < kMaxStackTraces, slotRejects (s idx) a f) ∧
    (runAdds emptySlots ops).2 = true ∧
    (add (runAdds emptySlots ops).1 newAttr newFrames).1 = false ∧
    (∀ u : Nat,
      (handleAddSample (runAdds emptySlots ops).1 newAttr newFrames u).2 = u + 1) ∧
    (harvestSamples (runAdds emptySlots ops).1 []).2.1.length = kMaxStackTraces := by
  obtain ⟨hok, hreject, hbuckets⟩ :=
    runAdds_full_drain ops hlen hnd (fun op hop => (hval op hop).2)
  have hnew : (add (runAdds emptySlots ops).1 newAttr newFrames).1 = false :=
    hreject newAttr newFrames hfresh
  refine ⟨add_false_iff, hok, hnew, ?_, ?_⟩
  · intro u
    simp [handleAddSample, hnew]
  · rw [hbuckets]
    rw [List.countP_eq_length.mpr ?_, List.length_map, hlen]
    intro k hk
    obtain ⟨op, hop, hkey⟩ := List.mem_map.mp hk
    have : op.2 = k.frames := congrArg CallTrace.frames hkey
    have hne := (hval op hop).1
    rw [this] at hne
    simp [hne]

/-- Witness for C4 (amended): 2048 concrete distinct one-frame traces. -/
theorem add_saturation_witness :
    (runAdds emptySlots ((List.range kMaxStackTraces).map
      (fun k => ((0 : Int), [(⟨0, k + 1⟩ : JVMPICallFrame)])))).2 = true ∧
    (add (runAdds emptySlots ((List.range kMaxStackTraces).map
      (fun k => ((0 : Int), [(⟨0, k + 1⟩ : JVMPICallFrame)])))).1 1 [⟨0, 1⟩]).1 = false ∧
    (harvestSamples (runAdds emptySlots ((List.range kMaxStackTraces).map
      (fun k => ((0 : Int), [(⟨0, k + 1⟩ : JVMPICallFrame)])))).1 []).2.1.length =
      kMaxStackTraces := by
  have hlen : ((List.range kMaxStackTraces).map
      (fun k => ((0 : Int), [(⟨0, k + 1⟩ : JVMPICallFrame)]))).length = kMaxStackTraces := by
    rw [List.length_map, List.length_range]
  have hmapmap : ((List.range kMaxStackTraces).map
      (fun k => ((0 : Int), [(⟨0, k + 1⟩ : JVMPICallFrame)]))).map
        (fun op => (⟨op.1, op.2⟩ : CallTrace)) =
      (List.range kMaxStackTraces).map
        (fun k => (⟨0, [⟨0, k + 1⟩]⟩ : CallTrace)) := by
    rw [List.map_map]
    rfl
  have hinj : Function.Injective
      (fun k => (⟨0, [⟨0, k + 1⟩]⟩ : CallTrace)) := by
    intro a b h
    simp only [CallTrace.mk.injEq, List.cons.injEq, JVMPICallFrame.mk.injEq] at h
    omega
  have hnd : (((List.range kMaxStackTraces).map
      (fun k => ((0 : Int), [(⟨0, k + 1⟩ : JVMPICallFrame)]))).map
        (fun op => (⟨op.1, op.2⟩ : CallTrace))).Nodup := by
    rw [hmapmap]
    exact (List.nodup_map_iff hinj).mpr (List.nodup_range _)
  have hval : ∀ op ∈ (List.range kMaxStackTraces).map
      (fun k => ((0 : Int), [(⟨0, k + 1⟩ : JVMPICallFrame)])),
      op.2 ≠ [] ∧ op.2.length ≤ kMaxFramesToCapture := by
    intro op hop
    obtain ⟨k, _, hk⟩ := List.mem_map.mp hop
    rw [← hk]
    exact ⟨by simp, by simp [kMaxFramesToCapture]⟩
  have hfresh : (⟨1, [⟨0, 1⟩]⟩ : CallTrace) ∉
      ((List.range kMaxStackTraces).map
        (fun k => ((0 : Int), [(⟨0, k + 1⟩ : JVMPICallFrame)]))).map
          (fun op => (⟨op.1, op.2⟩ : CallTrace)) := by
    rw [hmapmap]
    intro hmem
    obtain ⟨k, _, hk⟩ := List.mem_map.mp hmem
    simp [CallTrace.mk.injEq] at hk
  have H := add_saturation _ 1 [⟨0, 1⟩] hlen hnd hval hfresh
  exact ⟨H.2.1, H.2.2.1, H.2.2.2.2⟩

/-- Counterexample to C4 as stated: among 2048 pairwise-distinct traces one
has zero frames; all 2048 insertions succeed and a further distinct add is
rejected, but the full drain yields 2047 buckets, not 2048. -/
theorem add_saturation_counterexample :
    (runAdds emptySlots (((0 : Int), ([] : List JVMPICallFrame)) ::
      (List.range 2047).map (fun k => ((0 : Int), [(⟨0, k + 1⟩ : JVMPICallFrame)])))).2 =
        true ∧
    (add (runAdds emptySlots (((0 : Int), ([] : List JVMPICallFrame)) ::
      (List.range 2047).map (fun k => ((0 : Int), [(⟨0, k + 1⟩ : JVMPICallFrame)])))).1
        1 [⟨0, 1⟩]).1 = false ∧
    (harvestSamples (runAdds emptySlots (((0 : Int), ([] : List JVMPICallFrame)) ::
      (List.range 2047).map (fun k => ((0 : Int), [(⟨0, k + 1⟩ : JVMPICallFrame)])))).1
        []).2.1.length = 2047 ∧
    2047 ≠ kMaxStackTraces := by
  have hlen : ((((0 : Int), ([] : List JVMPICallFrame)) ::
      (List.range 2047).map (fun k => ((0 : Int), [(⟨0, k + 1⟩ : JVMPICallFrame)])))).length =
      kMaxStackTraces := by
    rw [List.length_cons, List.length_map, List.length_range]
    decide
  have hmapmap : ((((0 : Int), ([] : List JVMPICallFrame)) ::
      (List.range 2047).map (fun k => ((0 : Int), [(⟨0, k + 1⟩ : JVMPICallFrame)]))).map
        (fun op => (⟨op.1, op.2⟩ : CallTrace))) =
      (⟨0, []⟩ : CallTrace) :: (List.range 2047).map
        (fun k => (⟨0, [⟨0, k + 1⟩]⟩ : CallTrace)) := by
    rw [List.map_cons, List.map_map]
    rfl
  have hinj : Function.Injective
      (fun k => (⟨0, [⟨0, k + 1⟩]⟩ : CallTrace)) := by
    intro a b h
    simp only [CallTrace.mk.injEq, List.cons.injEq, JVMPICallFrame.mk.injEq] at h
    omega
  have hnd : (((((0 : Int), ([] : List JVMPICallFrame)) ::
      (List.range 2047).map (fun k => ((0 : Int), [(⟨0, k + 1⟩ : JVMPICallFrame)])))).map
        (fun op => (⟨op.1, op.2⟩ : CallTrace))).Nodup := by
    rw [hmapmap]
    refine List.nodup_cons.mpr ⟨?_, (List.nodup_map_iff hinj).mpr (List.nodup_range _)⟩
    intro hmem
    obtain ⟨k, _, hk⟩ := List.mem_map.mp hmem
    simp [CallTrace.mk.injEq] at hk
  have hframes : ∀ op ∈ (((0 : Int), ([] : List JVMPICallFrame)) ::
      (List.range 2047).map (fun k => ((0 : Int), [(⟨0, k + 1⟩ : JVMPICallFrame)]))),
      op.2.length ≤ kMaxFramesToCapture := by
    intro op hop
    rcases List.mem_cons.mp hop with h | h
    · rw [h]
      decide
    · obtain ⟨k, _, hk⟩ := List.mem_map.mp h
      rw [← hk]
      simp [kMaxFramesToCapture]
  have hfresh : (⟨1, [⟨0, 1⟩]⟩ : CallTrace) ∉
      ((((0 : Int), ([] : List JVMPICallFrame)) ::
        (List.range 2047).map (fun k => ((0 : Int), [(⟨0, k + 1⟩ : JVMPICallFrame)]))).map
          (fun op => (⟨op.1, op.2⟩ : CallTrace))) := by
    rw [hmapmap]
    intro hmem
    rcases List.mem_cons.mp hmem with h | h
    · simp [CallTrace.mk.injEq] at h
    · obtain ⟨k, _, hk⟩ := List.mem_map.mp h
      simp [CallTrace.mk.injEq] at hk
  obtain ⟨hok, hreject, hbuckets⟩ := runAdds_full_drain _ hlen hnd hframes
  refine ⟨hok, hreject 1 [⟨0, 1⟩] hfresh, ?_, by decide⟩
  rw [hbuckets, hmapmap]
  have h1 : ((⟨0, []⟩ : CallTrace) :: (List.range 2047).map
      (fun k => (⟨0, [⟨0, k + 1⟩]⟩ : CallTrace))).countP (fun k => !k.frames.isEmpty) =
      ((List.range 2047).map (fun k => (⟨0, [⟨0, k + 1⟩]⟩ : CallTrace))).countP
        (fun k => !k.frames.isEmpty) := by
    rw [List.countP_cons]
    simp
  rw [h1, List.countP_eq_length.mpr ?_, List.length_map, List.length_range]
  intro k hk
  obtain ⟨j, _, hj⟩ := List.mem_map.mp hk
  rw [← hj]
  rfl

/-! ## C5: wall-profiler effective period (corrected for floor division) -/

/-- C5 (amended): for all positive `p`, `n`, `m`, `d`, the effective period
`p* = EffectivePeriodNanos(p, n, m, d)` satisfies the wakeup-rate bound only
up to integer-division rounding — `p* = d` or `n * 10^9 < m * (p* + 1)` — and
divides the duration only approximately: `d mod p* < d / p*` (the rounding
error is smaller than the number of samples).  The exact laws
`n * 10^9 ≤ m * p*` and `d mod p* = 0 ∨ p* = d` claimed by the specification
fail, see `effectivePeriodNanos_counterexample`. -/
theorem effectivePeriodNanos_bounds (p n m d : Nat)
    (hp : 0 < p) (hn : 0 < n) (hm : 0 < m) (hd : 0 < d) :
    (effectivePeriodNanos p n m d = d ∨
      n * 1000000000 < m * (effectivePeriodNanos p n m d + 1)) ∧
    d % effectivePeriodNanos p n m d < d / effectivePeriodNanos p n m d := by
  have hp1 : 0 < (if n * 1000000000 > m * p then n * 1000000000 / m else p) := by
    split_ifs with h
    · refine Nat.div_pos ?_ hm
      calc m = m * 1 := (Nat.mul_one m).symm
        _ ≤ m * p := Nat.mul_le_mul_left m hp
        _ ≤ n * 1000000000 := le_of_lt h
    · exact hp
  have hb1 : n * 1000000000 <
      m * (if n * 1000000000 > m * p then n * 1000000000 / m else p) + m := by
    split_ifs with h
    · have h1 := Nat.div_add_mod (n * 1000000000) m
      have h2 := Nat.mod_lt (n * 1000000000) hm
      omega
    · push_neg at h
      omega
  simp only [effectivePeriodNanos]
  generalize hq : (if n * 1000000000 > m * p then n * 1000000000 / m else p) = p1 at hp1 hb1
  by_cases hfq : d / p1 = 0
  · rw [if_pos hfq]
    refine ⟨Or.inl rfl, ?_⟩
    rw [Nat.mod_self, Nat.div_self hd]
    norm_num
  · rw [if_neg hfq]
    have hfqpos : 0 < d / p1 := Nat.pos_of_ne_zero hfq
    have f2 : p1 ≤ d / (d / p1) := by
      rw [Nat.le_div_iff_mul_le hfqpos]
      have h1 := Nat.div_mul_le_self d p1
      have h2 : p1 * (d / p1) = d / p1 * p1 := by ring
      omega
    have hpf : 0 < d / (d / p1) := lt_of_lt_of_le hp1 f2
    constructor
    · refine Or.inr ?_
      have h1 := Nat.mul_le_mul_left m f2
      have h2 : m * (d / (d / p1) + 1) = m * (d / (d / p1)) + m := by ring
      omega
    · have e1 := Nat.div_add_mod d (d / (d / p1))
      have f6 : d / p1 ≤ d / (d / (d / p1)) := by
        rw [Nat.le_div_iff_mul_le hpf]
        have h1 := Nat.div_mul_le_self d (d / p1)
        have h2 : d / p1 * (d / (d / p1)) = d / (d / p1) * (d / p1) := by ring
        omega
      have e2 := Nat.div_add_mod d (d / p1)
      have e2b := Nat.mod_lt d hfqpos
      have e3 := Nat.mul_le_mul_right (d / (d / p1)) f6
      have comm : (d / (d / p1)) * (d / (d / (d / p1))) =
          (d / (d / (d / p1))) * (d / (d / p1)) := by ring
      omega

/-- Counterexample to C5 as stated: with `(p, n, m, d) = (1, 1, 3, 666666666)`
the effective period is `333333333` and `m * p* = 999999999 < 10^9 = n * 10^9`;
with `(p, n, m, d) = (3, 1, 10^9, 10)` the effective period is `3`, which
neither divides `d = 10` nor equals it. -/
theorem effectivePeriodNanos_counterexample :
    ¬((1 : Nat) * 1000000000 ≤ 3 * effectivePeriodNanos 1 1 3 666666666) ∧
    ¬(10 % effectivePeriodNanos 3 1 1000000000 10 = 0 ∨
      effectivePeriodNanos 3 1 1000000000 10 = 10) := by
  constructor <;> decide

/-- Witness for C5 (amended) at `(p, n, m, d) = (3, 1, 10^9, 10)`. -/
theorem effectivePeriodNanos_bounds_witness :
    (effectivePeriodNanos 3 1 1000000000 10 = 10 ∨
      1 * 1000000000 < 1000000000 * (effectivePeriodNanos 3 1 1000000000 10 + 1)) ∧
    10 % effectivePeriodNanos 3 1 1000000000 10 < 10 / effectivePeriodNanos 3 1 1000000000 10 :=
  effectivePeriodNanos_bounds 3 1 1000000000 10
    (by decide) (by decide) (by decide) (by decide)

/-! ## C6: serialized total weight and the `[Unknown]` sample -/

theorem populate_totalWeight (traces : TraceMultiset) :
    ∀ (b : PBuilder) (periodNs : Int),
      (populate b traces periodNs).totalWeight = b.totalWeight + tmSum traces * periodNs := by
  induction traces with
  | nil =>
      intro b periodNs
      show b.totalWeight = b.totalWeight + tmSum [] * periodNs
      show b.totalWeight = b.totalWeight + 0 * periodNs
      ring
  | cons tr rest ih =>
      intro b periodNs
      obtain ⟨k, c⟩ := tr
      have hstep : populate b ((k, c) :: rest) periodNs =
          populate (if c ≠ 0 then
            addSample b (k.frames.map LocRef.frame) c (c * periodNs) k.attr else b)
            rest periodNs := rfl
      have hsum : tmSum ((k, c) :: rest) = c + tmSum rest := rfl
      rw [hstep, hsum]
      by_cases hc : c = 0
      · rw [if_neg (by simp [hc])]
        rw [ih b periodNs, hc]
        ring
      · rw [if_pos hc, ih _ periodNs]
        show b.totalWeight + c * periodNs + tmSum rest * periodNs = _
        ring

theorem populate_weight_sum (traces : TraceMultiset) :
    ∀ (b : PBuilder) (periodNs : Int),
      b.totalWeight = (b.samples.map (fun sm => sm.weight)).sum →
      (populate b traces periodNs).totalWeight =
        ((populate b traces periodNs).samples.map (fun sm => sm.weight)).sum := by
  induction traces with
  | nil => intro b periodNs h; exact h
  | cons tr rest ih =>
      intro b periodNs h
      obtain ⟨k, c⟩ := tr
      have hstep : populate b ((k, c) :: rest) periodNs =
          populate (if c ≠ 0 then
            addSample b (k.frames.map LocRef.frame) c (c * periodNs) k.attr else b)
            rest periodNs := rfl
      rw [hstep]
      by_cases hc : c = 0
      · rw [if_neg (by simp [hc])]
        exact ih b periodNs h
      · rw [if_pos hc]
        refine ih _ periodNs ?_
        have haddW : (addSample b (k.frames.map LocRef.frame) c (c * periodNs)
            k.attr).totalWeight = b.totalWeight + c * periodNs := rfl
        have haddS : (addSample b (k.frames.map LocRef.frame) c (c * periodNs)
            k.attr).samples = b.samples ++
            [(⟨k.frames.map LocRef.frame, c, c * periodNs, k.attr⟩ : PSample)] := rfl
        rw [haddW, haddS, List.map_append, List.sum_append, ← h]
        simp

/-- C6: serializing an aggregated trace set with period `period_ns` and
lost-sample count `unknown_count` yields a profile whose total sample weight
is `(Σ counts) * period_ns + unknown_count * period_ns`, where the lost
samples are carried by one artificial trailing sample named `[Unknown]` with
count `unknown_count` and weight `unknown_count * period_ns` (and the tracked
total weight is exactly the sum of the sample weights). -/
theorem serialize_total_weight (traces : TraceMultiset) (periodNs unknownCount : Int) :
    (serializeAndClearJavaCpuTraces traces periodNs unknownCount).totalWeight =
      tmSum traces * periodNs + unknownCount * periodNs ∧
    (serializeAndClearJavaCpuTraces traces periodNs unknownCount).samples.getLast? =
      some ⟨[LocRef.named "[Unknown]"], unknownCount, unknownCount * periodNs, 0⟩ ∧
    (serializeAndClearJavaCpuTraces traces periodNs unknownCount).totalWeight =
      ((serializeAndClearJavaCpuTraces traces periodNs unknownCount).samples.map
        (fun sm => sm.weight)).sum := by
  have hser : serializeAndClearJavaCpuTraces traces periodNs unknownCount =
      ⟨(populate emptyBuilder traces periodNs).samples ++
        [⟨[LocRef.named "[Unknown]"], unknownCount, unknownCount * periodNs, 0⟩],
       (populate emptyBuilder traces periodNs).totalCount + unknownCount,
       (populate emptyBuilder traces periodNs).totalWeight + unknownCount * periodNs⟩ := rfl
  rw [hser]
  refine ⟨?_, ?_, ?_⟩
  · show (populate emptyBuilder traces periodNs).totalWeight + unknownCount * periodNs = _
    rw [populate_totalWeight traces emptyBuilder periodNs]
    show 0 + tmSum traces * periodNs + unknownCount * periodNs = _
    ring
  · show ((populate emptyBuilder traces periodNs).samples ++
      ([⟨[LocRef.named "[Unknown]"], unknownCount, unknownCount * periodNs, 0⟩] :
        List PSample)).getLast? =
      some (⟨[LocRef.named "[Unknown]"], unknownCount, unknownCount * periodNs, 0⟩ : PSample)
    rw [List.getLast?_concat]
  · show (populate emptyBuilder traces periodNs).totalWeight + unknownCount * periodNs =
      (((populate emptyBuilder traces periodNs).samples ++
        ([⟨[LocRef.named "[Unknown]"], unknownCount, unknownCount * periodNs, 0⟩] :
          List PSample)).map (fun sm => sm.weight)).sum
    rw [List.map_append, List.sum_append,
      ← populate_weight_sum traces emptyBuilder periodNs rfl]
    simp

/-! ## C7: the creation backoff envelope -/

/-- The reachable-envelope list is closed under the growth step, the step is
non-decreasing on it, and it stays within `[kBackoffNanos, kMaxBackoffNanos]`.
Checked by evaluation of the exact binary32 growth step on the 17 reachable
values. -/
theorem backoffReachable_closed :
    ∀ e ∈ backoffReachable, backoffGrow e ∈ backoffReachable ∧ e ≤ backoffGrow e ∧
      kBackoffNanos ≤ e ∧ e ≤ kMaxBackoffNanos := by decide

theorem backoffFold_mem (events : List ThrottlerEvent) :
    ∀ e, e ∈ backoffReachable → events.foldl backoffStep e ∈ backoffReachable := by
  induction events with
  | nil => intro e he; exact he
  | cons ev rest ih =>
      intro e he
      rw [List.foldl_cons]
      apply ih
      cases ev with
      | createSuccess =>
          show kBackoffNanos ∈ backoffReachable
          decide
      | abortedWithRetryDelay => exact he
      | createFailure => exact (backoffReachable_closed e he).1

/-- C7: across any run of `CreateProfile` outcomes the backoff envelope stays
within `[60 s, 1 h]`, a further creation failure never decreases it
(monotonically non-decreasing over consecutive failures), a server-guided
`ABORTED` retry leaves it unchanged, any success resets it to 60 s, and it
starts at 60 s. -/
theorem backoff_envelope_invariant (events : List ThrottlerEvent) :
    kBackoffNanos ≤ backoffRun events ∧
    backoffRun events ≤ kMaxBackoffNanos ∧
    backoffRun events ≤ backoffStep (backoffRun events) ThrottlerEvent.createFailure ∧
    backoffStep (backoffRun events) ThrottlerEvent.abortedWithRetryDelay =
      backoffRun events ∧
    backoffStep (backoffRun events) ThrottlerEvent.createSuccess = kBackoffNanos ∧
    backoffRun [] = kBackoffNanos := by
  have hm : backoffRun events ∈ backoffReachable :=
    backoffFold_mem events kBackoffNanos (by decide)
  obtain ⟨h1, h2, h3, h4⟩ := backoffReachable_closed _ hm
  exact ⟨h3, h4, h2, rfl, rfl, rfl⟩

/-! ## C8: IsValidServiceName versus the documented regular expression -/

/-- A lowercase letter is also in the last-character class `[a-z0-9]`. -/
theorem svcLower_svcLast (c : Char) (h : svcLower c = true) : svcLast c = true := by
  unfold svcLower at h
  unfold svcLast
  simp only [Bool.not_eq_true'] at h
  simp [h]

/-- Unfolding of the guard chain of `isValidServiceNameChars` into a
propositional conjunction. -/
theorem isValidServiceNameChars_eq_true_iff (l : List Char) :
    isValidServiceNameChars l = true ↔
      (1 ≤ l.length ∧ l.length ≤ 255 ∧ svcLower (l.headD 'a') = true ∧
       svcLast (l.getLastD 'a') = true ∧ ∀ x ∈ (l.drop 1).dropLast, svcMiddle x = true) := by
  unfold isValidServiceNameChars
  split_ifs with h1 h2 h3
  · simp only [Bool.or_eq_true, decide_eq_true_eq] at h1
    simp only [false_iff, not_and]
    intro ha hb
    omega
  · simp only [Bool.not_eq_true'] at h2
    simp only [false_iff, not_and]
    intro _ _ hc
    rw [hc] at h2
    cases h2
  · simp only [Bool.not_eq_true'] at h3
    simp only [false_iff, not_and]
    intro _ _ _ hd
    rw [hd] at h3
    cases h3
  · simp only [Bool.or_eq_true, decide_eq_true_eq, not_or] at h1
    simp only [Bool.not_eq_true', Bool.not_eq_false] at h2 h3
    rw [List.all_eq_true]
    constructor
    · intro h
      exact ⟨by omega, by omega, h2, h3, h⟩
    · rintro ⟨-, -, -, -, h⟩
      exact h

/-- `getLastD` on a nonempty list is its `getLast`. -/
theorem getLastD_eq_getLast (l : List Char) (d : Char) (h : l ≠ []) :
    l.getLastD d = l.getLast h := by
  induction l with
  | nil => exact absurd rfl h
  | cons a rest ih =>
      cases rest with
      | nil => rfl
      | cons b r2 =>
          rw [List.getLast_cons (by simp)]
          exact ih (by simp)

/-- The character-list validator agrees with the regular-expression match
predicate. -/
theorem serviceNameChars_iff_regex (l : List Char) :
    isValidServiceNameChars l = true ↔ MatchesServiceNameRegex l := by
  rw [isValidServiceNameChars_eq_true_iff]
  unfold MatchesServiceNameRegex
  cases l with
  | nil => simp
  | cons c r =>
      cases r with
      | nil =>
          constructor
          · rintro ⟨-, -, hlow, -, -⟩
            exact Or.inl ⟨c, by simpa using hlow, rfl⟩
          · rintro (⟨c1, hc1, he⟩ | ⟨c1, mid, e, hlow, hmidlen, hmid, hlast, he⟩)
            · simp only [List.cons.injEq, and_true] at he
              subst he
              refine ⟨by simp, by simp, by simpa using hc1, ?_, by simp⟩
              simpa using svcLower_svcLast c hc1
            · exfalso
              have hl := congrArg List.length he
              simp [List.length_append] at hl
          | cons c2 r2 =>
              have hrne : (c2 :: r2 : List Char) ≠ [] := by simp
              constructor
              · rintro ⟨-, hle, hlow, hlast, hmid⟩
                refine Or.inr ⟨c, (c2 :: r2).dropLast, (c2 :: r2).getLast hrne,
                  by simpa using hlow, ?_, ?_, ?_, ?_⟩
                · have hlen := List.length_dropLast (c2 :: r2)
                  simp only [List.length_cons] at hle hlen
                  omega
                · intro x hx
                  apply hmid
                  simpa using hx
                · have h1 : (c :: c2 :: r2 : List Char).getLastD 'a'
                      = (c2 :: r2 : List Char).getLast hrne := by
                    rw [getLastD_eq_getLast _ 'a' (by simp), List.getLast_cons hrne]
                  rw [h1] at hlast
                  exact hlast
                · rw [List.dropLast_append_getLast hrne]
              · rintro (⟨c1, hc1, he⟩ | ⟨c1, mid, e, hlow, hmidlen, hmid, hlast, he⟩)
                · exfalso
                  have hl := congrArg List.length he
                  simp at hl
                · simp only [List.cons.injEq] at he
                  obtain ⟨hc, hr⟩ := he
                  subst hc
                  refine ⟨by simp, ?_, by simpa using hlow, ?_, ?_⟩
                  · have hl := congrArg List.length hr
                    simp [List.length_append] at hl
                    simp only [List.length_cons]
                    omega
                  · rw [List.getLastD_cons, hr, List.getLastD_concat]
                    exact hlast
                  · intro x hx
                    apply hmid
                    have : (c :: c2 :: r2 : List Char).drop 1 = c2 :: r2 := rfl
                    rw [this, hr, List.dropLast_concat] at hx
                    exact hx

/-- **C8**: `IsValidServiceName(s)` returns true if and only if `s` matches
the regular expression `^[a-z]([-a-z0-9_.]{0,253}[a-z0-9])?$`: first character
a lowercase letter; optional middle of up to 253 characters drawn from
lowercase letters, digits, hyphen, underscore and dot; last character a
lowercase letter or digit; total length between 1 and 255. -/
theorem isValidServiceName_iff_regex (s : String) :
    isValidServiceName s = true ↔ MatchesServiceNameRegex s.data := by
  unfold isValidServiceName
  exact serviceNameChars_iff_regex s.data


/-! ## C9: aborting on a too-large thread snapshot -/

/-- Base unfolding of `wallLoop`: zero fuel yields `none`. -/
theorem wallLoop_zero (snapshots : Nat → List Nat) (cutoff myTid : Nat)
    (pp fl : Timespec) (next : Timespec) (k : Nat) (count : Int) (sent : List Nat) :
    wallLoop snapshots cutoff myTid pp fl 0 next k count sent = none := rfl

/-- One-step unfolding of `wallLoop` at positive fuel. -/
theorem wallLoop_succ (snapshots : Nat → List Nat) (cutoff myTid : Nat)
    (pp fl : Timespec) (fuel : Nat) (next : Timespec) (k : Nat) (count : Int)
    (sent : List Nat) :
    wallLoop snapshots cutoff myTid pp fl (fuel + 1) next k count sent =
      if timeLessThan next fl then
        if cutoff < (snapshots k).length then
          some ⟨false, false, k + 1, sent⟩
        else
          wallLoop snapshots cutoff myTid pp fl fuel (timeAdd next pp) (k + 1)
            ((if count > kFlushPeriod then 0 else count) + (snapshots k).length)
            (sent ++ (snapshots k).filter (fun tid => tid ≠ myTid))
      else
        some ⟨true, true, k, sent⟩ := rfl

/-- If the loop terminated and some examined snapshot exceeded the cutoff, the
run aborted: it returned `false` and never reached the
`signal(SIGPROF, SIG_IGN)` call on the normal exit path. -/
theorem wallLoop_oversize_abort (snapshots : Nat → List Nat) (cutoff myTid : Nat)
    (pp fl : Timespec) :
    ∀ (fuel : Nat) (next : Timespec) (k : Nat) (count : Int) (sent : List Nat)
      (r : WallResult),
      wallLoop snapshots cutoff myTid pp fl fuel next k count sent = some r →
      (∃ j, k ≤ j ∧ j < r.snapshotsTaken ∧ cutoff < (snapshots j).length) →
      r.ok = false ∧ r.sigIgnSet = false := by
  intro fuel
  induction fuel with
  | zero =>
      intro next k count sent r h _
      rw [wallLoop_zero] at h
      cases h
  | succ n ih =>
      intro next k count sent r h hex
      rw [wallLoop_succ] at h
      by_cases ht : timeLessThan next fl = true
      · rw [if_pos ht] at h
        by_cases hov : cutoff < (snapshots k).length
        · rw [if_pos hov] at h
          obtain rfl : (⟨false, false, k + 1, sent⟩ : WallResult) = r := Option.some.inj h
          exact ⟨rfl, rfl⟩
        · rw [if_neg hov] at h
          obtain ⟨j, hkj, hjr, hjov⟩ := hex
          refine ih _ _ _ _ _ h ⟨j, ?_, hjr, hjov⟩
          rcases Nat.eq_or_lt_of_le hkj with heq | hlt
          · subst heq
            exact absurd hjov hov
          · exact hlt
      · rw [if_neg ht] at h
        obtain rfl : (⟨true, true, k, sent⟩ : WallResult) = r := Option.some.inj h
        obtain ⟨j, hkj, hjr, -⟩ := hex
        have hjk : j < k := hjr
        omega

/-- **C9** (amended): whenever the thread snapshot taken in some iteration of
`WallProfiler::Collect` exceeds the configured cutoff, the collection aborts:
it returns `false`, the worker wrapper produces no profile bytes for the
iteration, and `Worker::ProfileThread` skips the upload.  Contrary to the
claim, the profiling signal handler is NOT cleared on this path: the
`signal(SIGPROF, SIG_IGN)` call sits after the loop on the normal exit path
only, and the early `return false` bypasses it (`r.sigIgnSet = false`). -/
theorem wall_cutoff_abort (snapshots : Nat → List Nat) (cutoff myTid : Nat)
    (periodNanos durationNanos : Int) (now1 now2 : Timespec) (fuel : Nat)
    (r : WallResult) (ser : String)
    (hr : wallCollect snapshots cutoff myTid periodNanos durationNanos now1 now2
      fuel = some r)
    (hover : ∃ j, j < r.snapshotsTaken ∧ cutoff < (snapshots j).length) :
    r.ok = false ∧ r.sigIgnSet = false ∧ workerCollect r.ok ser = "" ∧
      workerUploads (workerCollect r.ok ser) = false := by
  rw [wallCollect] at hr
  obtain ⟨j, hjr, hjov⟩ := hover
  have h := wallLoop_oversize_abort snapshots cutoff myTid ⟨0, periodNanos⟩
    (timeAdd now1 (nanosToTimeSpec durationNanos)) fuel now2 0 0 [] r hr
    ⟨j, Nat.zero_le j, hjr, hjov⟩
  refine ⟨h.1, h.2, ?_, ?_⟩
  · rw [h.1]
    rfl
  · rw [h.1]
    show workerUploads "" = false
    decide

/-- The concrete witness run: 4200-thread snapshots against cutoff 4096 abort
in the first iteration. -/
theorem wallCollect_4200_run :
    wallCollect (fun _ => List.range 4200) 4096 0 100000000 1000000000
      ⟨0, 0⟩ ⟨0, 0⟩ 3 = some ⟨false, false, 1, []⟩ := by
  show wallLoop (fun _ => List.range 4200) 4096 0 ⟨0, 100000000⟩
    (timeAdd ⟨0, 0⟩ (nanosToTimeSpec 1000000000)) (2 + 1) ⟨0, 0⟩ 0 0 []
    = some ⟨false, false, 1, []⟩
  rw [wallLoop_succ]
  rw [if_pos (show timeLessThan ⟨0, 0⟩
    (timeAdd ⟨0, 0⟩ (nanosToTimeSpec 1000000000)) = true by decide)]
  rw [if_pos (show (4096 : Nat) < ((fun _ : Nat => List.range 4200) 0).length by
    norm_num [List.length_range])]

/-- Witness for the C9 theorem: a run over 4200-thread snapshots with cutoff
4096 terminates at `⟨false, false, 1, []⟩`, so the iteration returns false,
yields no bytes, and skips the upload. -/
theorem wall_cutoff_abort_witness :
    (⟨false, false, 1, []⟩ : WallResult).ok = false ∧
    (⟨false, false, 1, []⟩ : WallResult).sigIgnSet = false ∧
    workerCollect (⟨false, false, 1, []⟩ : WallResult).ok "bytes" = "" ∧
    workerUploads (workerCollect (⟨false, false, 1, []⟩ : WallResult).ok "bytes")
      = false :=
  wall_cutoff_abort (fun _ => List.range 4200) 4096 0 100000000 1000000000
    ⟨0, 0⟩ ⟨0, 0⟩ 3 ⟨false, false, 1, []⟩ "bytes" wallCollect_4200_run
    ⟨0, by decide, by norm_num [List.length_range]⟩

/-- Counterexample to C9's "the profiling signal handler is cleared": the S3
scenario of the spec (5000 live threads, cutoff 4096) aborts in the first
iteration with `sigIgnSet = false` — the `signal(SIGPROF, SIG_IGN)` call on
the normal exit path is never executed, and neither `WallProfiler::Collect`
nor the worker restores or clears the handler on the abort path. -/
theorem wall_cutoff_handler_counterexample :
    wallCollect (fun _ => List.range 5000) 4096 0 100000000 1000000000
      ⟨0, 0⟩ ⟨0, 0⟩ 3 = some ⟨false, false, 1, []⟩ := by
  show wallLoop (fun _ => List.range 5000) 4096 0 ⟨0, 100000000⟩
    (timeAdd ⟨0, 0⟩ (nanosToTimeSpec 1000000000)) (2 + 1) ⟨0, 0⟩ 0 0 []
    = some ⟨false, false, 1, []⟩
  rw [wallLoop_succ]
  rw [if_pos (show timeLessThan ⟨0, 0⟩
    (timeAdd ⟨0, 0⟩ (nanosToTimeSpec 1000000000)) = true by decide)]
  rw [if_pos (show (4096 : Nat) < ((fun _ : Nat => List.range 5000) 0).length by
    norm_num [List.length_range])]

end CloudProfiler
